import Mathlib

/-!
# Object search conditions (`fsdb/fssearch/objsearch/cnd.go`) and paths (`common/fspath/path.go`)

A shallow embedding of the condition parser and evaluator of the `objsearch`
package and of three functions of the `fspath` package, followed by theorems
about them.

Go values of type `any` are embedded as the inductive type `GoAny`; a Go `error`
is embedded as `Option GoError` (`none` is the nil error); an interface value of
type `i_Cnd` is embedded as the inductive type `i_Cnd`, whose constructor `nil`
is the nil interface value.  A call that panics in Go (calling a nil function
value, calling a method on a nil interface) is embedded as the result `none`.
-/

namespace FsPath

/-! ## Paths (`common/fspath/path.go`)

A Go string is embedded as the list of its bytes.  A slice expression that is out
of range (where Go panics) is embedded as the result `none`. -/

/-- A Go string, as the list of its bytes. -/
abbrev GoString := List Nat

/-- The loop of Go `path.Ext` (standard library),
`for i := len(path) - 1; i >= 0 && path[i] != '/'; i--`, which returns `path[i:]`
at the first `i` with `path[i] == '.'` and the empty string when it ends; the
argument is `i + 1`.  The byte 47 is `/` and the byte 46 is `.`. -/
def extLoop (path : GoString) : Nat → GoString
  | 0 => []
  | i + 1 =>
    if path.getD i 0 = 47 then []
    else if path.getD i 0 = 46 then path.drop i
    else extLoop path i

/-- Go `path.Ext` (standard library). -/
def path_Ext (path : GoString) : GoString :=
  extLoop path path.length

/-- `FileNoExt`: the slice expression `file[:len(file)-len(ext)]`, which panics
when the bound is negative or greater than `len(file)`. -/
def FileNoExt (file : GoString) : Option GoString :=
  let ext := path_Ext file
  let hi : Int := (file.length : Int) - (ext.length : Int)
  if 0 ≤ hi ∧ hi ≤ (file.length : Int) then some (file.take hi.toNat) else none

/-- What `IsFileAccessable` reads from the operating system:
`os.OpenFile(filePath, os.O_RDWR, 0666)`, which returns a file (here a number)
or an error (`none`), and `file.Stat()`, which returns the file information
(here the mode bits) or an error (`none`). -/
structure OS where
  OpenFile : GoString → Option Nat
  Stat : Nat → Option Nat

/-- The method `Perm` of `fs.FileMode`: the permission bits, `m & ModePerm` with
`ModePerm = 0777`. -/
def Perm (mode : Nat) : Nat :=
  mode &&& 0o777

/-- `IsFileAccessable`. -/
def IsFileAccessable (os : OS) (filePath : GoString) : Bool :=
  match os.OpenFile filePath with
  | none => false
  | some file =>
    match os.Stat file with
    | none => false
    | some mode => Perm mode &&& 0o400 == 0

/-- Go `strings.ReplaceAll(s, old, new)` when `old` and `new` are strings of one
byte each. -/
def replaceByte (s : GoString) (old new : Nat) : GoString :=
  s.map (fun b => if b = old then new else b)

/-- The backtracking of Go `filepath.Clean` at a `..` element, after `out.w--`:
the loop `for out.w > dotdot && !os.IsPathSeparator(out.index(out.w)) { out.w-- }`;
the argument is `out.w` and the result is the final `out.w`. -/
def backLoop (buf : GoString) (dotdot : Nat) : Nat → Nat
  | 0 => 0
  | w + 1 =>
    if w + 1 > dotdot ∧ buf.getD (w + 1) 0 ≠ 47 then backLoop buf dotdot w else w + 1

/-- The main loop `for r < n` of Go `filepath.Clean` (standard library) on a
platform whose separator is `/`: `rest` is `path[r:]`, `out` is the buffer
written so far, `dotdot` the index where `..` must stop.  Each turn reads at
least one byte, so `len(path)` turns are enough; the first argument bounds the
number of turns. -/
def cleanLoop (rooted : Bool) : Nat → GoString → GoString → Nat → GoString
  | 0, _, out, _ => out
  | fuel + 1, rest, out, dotdot =>
    match rest with
    | [] => out
    | c :: t =>
      if c = 47 then
        cleanLoop rooted fuel t out dotdot
      else if c = 46 ∧ (t = [] ∨ t.head? = some 47) then
        cleanLoop rooted fuel t out dotdot
      else if c = 46 ∧ t.head? = some 46 ∧ (t.tail = [] ∨ t.tail.head? = some 47) then
        if out.length > dotdot then
          cleanLoop rooted fuel t.tail (out.take (backLoop out dotdot (out.length - 1))) dotdot
        else if !rooted then
          let out1 := if out.length > 0 then out ++ [47] else out
          cleanLoop rooted fuel t.tail (out1 ++ [46, 46]) (out1 ++ [46, 46]).length
        else
          cleanLoop rooted fuel t.tail out dotdot
      else
        let out1 :=
          if (rooted ∧ out.length ≠ 1) ∨ (!rooted ∧ out.length ≠ 0) then out ++ [47] else out
        cleanLoop rooted fuel (rest.dropWhile (fun b => b != 47))
          (out1 ++ rest.takeWhile (fun b => b != 47)) dotdot

/-- Go `filepath.Clean` (standard library) on a platform whose separator is `/`,
where there are no volume names and `FromSlash` changes nothing. -/
def filepath_Clean (path : GoString) : GoString :=
  if path = [] then [46]
  else
    let rooted : Bool := path.head? = some 47
    let out :=
      if rooted then cleanLoop rooted path.length path.tail [47] 1
      else cleanLoop rooted path.length path [] 0
    if out.length = 0 then [46] else out

/-- `CleanPath` on a platform where `os.PathSeparator` is `/`; the byte 92 is the
backslash. -/
def CleanPath (path : GoString) : GoString :=
  let path := filepath_Clean path
  let path := replaceByte path 47 47
  replaceByte path 92 47

/-- A sample operating system: every path opens for reading and writing, and
every file is a regular file with the permission bits 0644. -/
def sampleOS : OS :=
  { OpenFile := fun _ => some 3, Stat := fun _ => some 0o644 }

end FsPath

namespace ObjSearch

/-! ## Go values -/

/-- A Go `error` value that is not nil, identified by its message. -/
structure GoError where
  msg : String
deriving DecidableEq, Repr

/-- A Go value of static type `any`, by dynamic type: the nil interface, `bool`,
an integer, `string`, `map[string]any` (an association list, looked up from the
left), `[]any`, and any other dynamic type (floats, structs, typed slices ...),
which the condition parser never looks into. -/
inductive GoAny where
  | nil
  | bool (b : Bool)
  | int (n : Int)
  | str (s : String)
  | map (m : List (String × GoAny))
  | slice (xs : List GoAny)
  | other (tag : Nat)

/-- The Go index expression `v, ok := m[k]` on a `map[string]any`: the value
stored under `k` and `true`, or the zero value (nil) and `false`. -/
def mapIndex : List (String × GoAny) → String → GoAny × Bool
  | [], _ => (GoAny.nil, false)
  | (k, v) :: rest, key => if k = key then (v, true) else mapIndex rest key

/-- Modelled from the spec: `fstype.IsType[string]` (package `fstype` is not among
the sources); it reports whether the dynamic type of the value is `string`. -/
def fstype_IsType_string : GoAny → Bool
  | GoAny.str _ => true
  | _ => false

/-- The Go type assertion `v.(string)`.  It is only ever evaluated under the
guard `fstype.IsType[string](v)`; on other values (where Go panics) the
embedding returns the empty string. -/
def assertString : GoAny → String
  | GoAny.str s => s
  | _ => ""

/-- Go `strings.ToLower`, on the ASCII letters.  Go also maps non-ASCII upper
case letters to lower case; no such letter is mapped to `o` or `r`, so the
comparison with `"or"` made by the parser is the same. -/
def strings_ToLower (s : String) : String :=
  String.mk (s.data.map Char.toLower)

/-! ## Comparison values, comparators, configuration -/

/-- Modelled from the spec: the comparison value `s_CmpValue` built by `newCmpValue`
(not among the sources); it holds the original untyped literal of the spec. -/
structure s_CmpValue where
  raw : GoAny

/-- Modelled from the spec: `newCmpValue` (not among the sources) wraps the literal
in a fresh comparison value and returns a pointer to it (never nil). -/
def newCmpValue (v : GoAny) : Option s_CmpValue :=
  some ⟨v⟩

/-- A comparator `func(any, string, *s_CmpValue) (bool, error)`. -/
abbrev Comparator := GoAny → String → Option s_CmpValue → Bool × Option GoError

/-- The interface `i_Config`, of which the parser uses one method. -/
structure i_Config where
  GetMatchHandler : String → String

/-- What the parser reads from outside the file: the registry
`cmpHandlers.handlers` (a Go map from operator name to comparator; `none` is
the nil function value that indexing yields for an absent name), and the
renderings of a value by the `fmt` verbs `%v` and `%#v`. -/
structure Env where
  handlers : String → Option Comparator
  fmtV : GoAny → String
  fmtSharpV : GoAny → String

/-- Go `errors.New`. -/
def errors_New (s : String) : GoError :=
  ⟨s⟩

/-- Modelled from the spec: `makeErrLegalMatcher` (not among the sources) builds the
error "illegal matcher for key <key>, match <match>". -/
def makeErrLegalMatcher (key mtch : String) : GoError :=
  ⟨"illegal matcher for key " ++ key ++ ", match " ++ mtch⟩

/-! ## Condition nodes -/

/-- The struct `s_Cnd`: a single condition.  `Value` is a pointer and `comparer`
a function value; both may be nil (`none`). -/
structure s_Cnd where
  Key : String
  Match : String
  Value : Option s_CmpValue
  comparer : Option Comparator
  conf : i_Config

/-- An interface value of type `i_Cnd`: nil, or a pointer to one of the three
implementations `s_Cnd`, `s_AndCnds` (field `cnds`), `s_OrCnds` (field `cnds`). -/
inductive i_Cnd where
  | nil
  | cnd (c : s_Cnd)
  | andCnds (cnds : List i_Cnd)
  | orCnds (cnds : List i_Cnd)

/-- `newCnd`: a fresh single condition holding only the configuration. -/
def newCnd (conf : i_Config) : s_Cnd :=
  { Key := "", Match := "", Value := none, comparer := none, conf := conf }

/-- `s_Cnd.parse`: reads a single condition from a mapping. -/
def s_Cnd.parse (env : Env) (this : s_Cnd) (cnd : List (String × GoAny)) :
    i_Cnd × Option GoError :=
  let r := mapIndex cnd "key"
  let r := if !r.2 then mapIndex cnd "col" else r
  let v := r.1
  let ok := r.2
  if !ok then
    (i_Cnd.nil, some (errors_New "no search condition key/col indicated"))
  else if !fstype_IsType_string v then
    (i_Cnd.nil, some ⟨"search condition key/col must be a string, but not " ++ env.fmtV v⟩)
  else
    let this := { this with Key := assertString v }
    if this.Key = "" then
      (i_Cnd.nil, some (errors_New "search condition key/col is not allow to be empty"))
    else
      let m := mapIndex cnd "match"
      if !m.2 then
        (i_Cnd.nil, some (errors_New "condition match is not indicated"))
      else if fstype_IsType_string m.1 then
        let this := { this with Match := assertString m.1 }
        let w := mapIndex cnd "value"
        if !w.2 then
          (i_Cnd.nil, some (errors_New "condition value is not indicated"))
        else
          let this := { this with Value := newCmpValue w.1 }
          let matcher := this.conf.GetMatchHandler this.Match
          let this := { this with comparer := env.handlers matcher }
          if this.comparer.isNone then
            (i_Cnd.nil, some (makeErrLegalMatcher this.Key this.Match))
          else
            (i_Cnd.cnd this, none)
      else
        (i_Cnd.nil, some (makeErrLegalMatcher this.Key (env.fmtV m.1)))

/-- `s_Cnd.compare`: calls the comparator; calling a nil comparator panics. -/
def s_Cnd.compare (this : s_Cnd) (obj : GoAny) : Option (Bool × Option GoError) :=
  match this.comparer with
  | none => none
  | some f => some (f obj this.Key this.Value)

mutual
/-- The method `compare` of an `i_Cnd` value, dispatched on the implementation. -/
def i_Cnd.compare : i_Cnd → GoAny → Option (Bool × Option GoError)
  | i_Cnd.nil, _ => none
  | i_Cnd.cnd c, obj => s_Cnd.compare c obj
  | i_Cnd.andCnds cnds, obj => s_AndCnds.compare cnds obj
  | i_Cnd.orCnds cnds, obj => s_OrCnds.compare cnds obj
/-- `s_AndCnds.compare`: the loop over `this.cnds`. -/
def s_AndCnds.compare : List i_Cnd → GoAny → Option (Bool × Option GoError)
  | [], _ => some (true, none)
  | cnd :: rest, obj =>
    match i_Cnd.compare cnd obj with
    | none => none
    | some (ok, err) =>
      if err.isSome then some (false, err)
      else if !ok then some (false, none)
      else s_AndCnds.compare rest obj
/-- `s_OrCnds.compare`: the loop over `this.cnds`. -/
def s_OrCnds.compare : List i_Cnd → GoAny → Option (Bool × Option GoError)
  | [], _ => some (false, none)
  | cnd :: rest, obj =>
    match i_Cnd.compare cnd obj with
    | none => none
    | some (ok, err) =>
      if err.isSome then some (false, err)
      else if ok then some (true, none)
      else s_OrCnds.compare rest obj
end

mutual
/-- The comparator calls made while `compare` runs on a condition, as the pairs
they return, in the order of the calls.  A single condition makes one call
(none when its comparator is nil, where the call panics); a group runs its
children from the left and goes on to the next child only when the loop does:
after `(true, nil)` in an "and" group, after `(false, nil)` in an "or" group. -/
def i_Cnd.calls : i_Cnd → GoAny → List (Bool × Option GoError)
  | i_Cnd.nil, _ => []
  | i_Cnd.cnd c, obj =>
    match c.comparer with
    | none => []
    | some f => [f obj c.Key c.Value]
  | i_Cnd.andCnds cnds, obj => s_AndCnds.calls cnds obj
  | i_Cnd.orCnds cnds, obj => s_OrCnds.calls cnds obj
/-- The comparator calls made by the loop of `s_AndCnds.compare`. -/
def s_AndCnds.calls : List i_Cnd → GoAny → List (Bool × Option GoError)
  | [], _ => []
  | cnd :: rest, obj =>
    i_Cnd.calls cnd obj ++
      (match i_Cnd.compare cnd obj with
       | some (true, none) => s_AndCnds.calls rest obj
       | _ => [])
/-- The comparator calls made by the loop of `s_OrCnds.compare`. -/
def s_OrCnds.calls : List i_Cnd → GoAny → List (Bool × Option GoError)
  | [], _ => []
  | cnd :: rest, obj =>
    i_Cnd.calls cnd obj ++
      (match i_Cnd.compare cnd obj with
       | some (false, none) => s_OrCnds.calls rest obj
       | _ => [])
end

/-- Whether an interface value holds a single condition (`*s_Cnd`). -/
def i_Cnd.isLeaf : i_Cnd → Bool
  | i_Cnd.cnd _ => true
  | _ => false

mutual
/-- The single conditions of a tree, at any depth, from the left. -/
def i_Cnd.leaves : i_Cnd → List s_Cnd
  | i_Cnd.nil => []
  | i_Cnd.cnd c => [c]
  | i_Cnd.andCnds cnds => leavesOfList cnds
  | i_Cnd.orCnds cnds => leavesOfList cnds
/-- The single conditions of the trees of a list, from the left. -/
def leavesOfList : List i_Cnd → List s_Cnd
  | [] => []
  | cnd :: rest => i_Cnd.leaves cnd ++ leavesOfList rest
end

/-! ## The parser -/

/-- The first loop of `parseCnd` on a `[]any`: every string element is skipped,
raising the flag `cndOR` when its lower-case form is `"or"`; every other
element is appended to `anyCnds`.  The result is the final `(cndOR, anyCnds)`. -/
def scanLoop : Bool → List GoAny → List GoAny → Bool × List GoAny
  | cndOR, anyCnds, [] => (cndOR, anyCnds)
  | cndOR, anyCnds, anyCnd :: rest =>
    if fstype_IsType_string anyCnd then
      if strings_ToLower (assertString anyCnd) = "or" then
        scanLoop true anyCnds rest
      else
        scanLoop cndOR anyCnds rest
    else
      scanLoop cndOR (anyCnds ++ [anyCnd]) rest

/-- The elements of a `[]any` that are not strings, in order. -/
def nonStrings (xs : List GoAny) : List GoAny :=
  xs.filter (fun x => !fstype_IsType_string x)

/-- Whether an element is a string whose lower-case form is `"or"`. -/
def isOrToken (x : GoAny) : Bool :=
  fstype_IsType_string x && decide (strings_ToLower (assertString x) = "or")

theorem scanLoop_snd (cndOR : Bool) (anyCnds xs : List GoAny) :
    (scanLoop cndOR anyCnds xs).2 = anyCnds ++ nonStrings xs := by
  induction xs generalizing cndOR anyCnds with
  | nil => simp [scanLoop, nonStrings]
  | cons x rest ih =>
    unfold scanLoop
    by_cases hx : fstype_IsType_string x = true
    · by_cases ho : strings_ToLower (assertString x) = "or"
      · simp [hx, ho, ih, nonStrings]
      · simp [hx, ho, ih, nonStrings]
    · simp only [hx, Bool.false_eq_true, if_false, ih]
      simp [nonStrings, hx]

theorem scanLoop_fst (cndOR : Bool) (anyCnds xs : List GoAny) :
    (scanLoop cndOR anyCnds xs).1 = (cndOR || xs.any isOrToken) := by
  induction xs generalizing cndOR anyCnds with
  | nil => simp [scanLoop]
  | cons x rest ih =>
    unfold scanLoop
    by_cases hx : fstype_IsType_string x = true
    · by_cases ho : strings_ToLower (assertString x) = "or"
      · simp [hx, ho, ih, isOrToken]
      · simp [hx, ho, ih, isOrToken]
    · simp only [hx, Bool.false_eq_true, if_false, ih]
      simp [isOrToken, hx]

theorem sizeOf_nonStrings_le (xs : List GoAny) : sizeOf (nonStrings xs) ≤ sizeOf xs := by
  induction xs with
  | nil => simp [nonStrings]
  | cons x rest ih =>
    unfold nonStrings at ih ⊢
    rw [List.filter_cons]
    split
    · simp only [List.cons.sizeOf_spec]; omega
    · simp only [List.cons.sizeOf_spec]; omega

theorem sizeOf_scanLoop_lt (xs : List GoAny) :
    sizeOf (scanLoop false [] xs).2 < 1 + sizeOf xs := by
  rw [scanLoop_snd]
  have := sizeOf_nonStrings_le xs
  simp only [List.nil_append]
  omega

mutual
/-- `parseCnd`: a mapping is a single condition, a `[]any` is a composite
condition (an "or" group when one of its strings is "or" in any letter case,
an "and" group otherwise), anything else is invalid. -/
def parseCnd (env : Env) (conf : i_Config) : GoAny → i_Cnd × Option GoError
  | GoAny.map m => s_Cnd.parse env (newCnd conf) m
  | GoAny.slice xs =>
    if (scanLoop false [] xs).1 then
      s_OrCnds.parse env conf [] (scanLoop false [] xs).2
    else
      s_AndCnds.parse env conf [] (scanLoop false [] xs).2
  | anyCnd => (i_Cnd.nil, some ⟨"invalid search condition(\"" ++ env.fmtSharpV anyCnd ++ "\")"⟩)
termination_by x => sizeOf x
decreasing_by
  all_goals simp_wf
  all_goals have := sizeOf_scanLoop_lt xs
  all_goals omega
/-- `s_AndCnds.parse`: the loop over `anyCnds`, started with `this.cnds` empty;
the first argument is `this.cnds` so far. -/
def s_AndCnds.parse (env : Env) (conf : i_Config) (cnds : List i_Cnd) :
    List GoAny → i_Cnd × Option GoError
  | [] => (i_Cnd.andCnds cnds, none)
  | anyCnd :: rest =>
    match parseCnd env conf anyCnd with
    | (cnd, err) =>
      if err.isSome then (i_Cnd.nil, err)
      else s_AndCnds.parse env conf (cnds ++ [cnd]) rest
termination_by xs => sizeOf xs
decreasing_by
  all_goals simp_wf
  all_goals omega
/-- `s_OrCnds.parse`: the loop over `anyCnds`, started with `this.cnds` empty;
the first argument is `this.cnds` so far. -/
def s_OrCnds.parse (env : Env) (conf : i_Config) (cnds : List i_Cnd) :
    List GoAny → i_Cnd × Option GoError
  | [] => (i_Cnd.orCnds cnds, none)
  | anyCnd :: rest =>
    match parseCnd env conf anyCnd with
    | (cnd, err) =>
      if err.isSome then (i_Cnd.nil, err)
      else s_OrCnds.parse env conf (cnds ++ [cnd]) rest
termination_by xs => sizeOf xs
decreasing_by
  all_goals simp_wf
  all_goals omega
end

/-! ## Notions used in the statements -/

/-- The field-name entry of a mapping spec: the entry under "key" if that entry
is present, otherwise the entry under "col" (with the presence flag). -/
def fieldEntry (m : List (String × GoAny)) : GoAny × Bool :=
  if (mapIndex m "key").2 then mapIndex m "key" else mapIndex m "col"

/-- The single condition that a successful parse builds. -/
def leafFor (conf : i_Config) (key mtch : String) (val : GoAny) (f : Comparator) : s_Cnd :=
  { Key := key, Match := mtch, Value := newCmpValue val, comparer := some f, conf := conf }

/-- The children built from a `[]any`: the nodes parsed from its elements that
are not strings, in order. -/
def childrenOf (env : Env) (conf : i_Config) (xs : List GoAny) : List i_Cnd :=
  (nonStrings xs).map (fun x => (parseCnd env conf x).1)

/-- The statement that `e` is the error of the leftmost failing element of the
spec, at any depth: either the spec itself is not a sequence and parses with the
error `e`, or it is a sequence in which an element that is not a string has
`e` as the error of its leftmost failing element, and the non-string elements
before that element parse without error. -/
inductive FirstFailure (env : Env) (conf : i_Config) : GoAny → GoError → Prop where
  | here (x : GoAny) (e : GoError) :
      (∀ xs, x ≠ GoAny.slice xs) → (parseCnd env conf x).2 = some e →
      FirstFailure env conf x e
  | inside (pre post : List GoAny) (x : GoAny) (e : GoError) :
      fstype_IsType_string x = false →
      (∀ p ∈ nonStrings pre, (parseCnd env conf p).2 = none) →
      FirstFailure env conf x e →
      FirstFailure env conf (GoAny.slice (pre ++ x :: post)) e

/-- What holds of a single condition built by the parser with the registry of
`env` and the configuration `conf`: a non-empty `Key`, and as `comparer` the
comparator (not nil) registered under the operator name that `conf` resolves
`Match` to. -/
def LeafInv (env : Env) (conf : i_Config) (l : s_Cnd) : Prop :=
  l.Key ≠ "" ∧ ∃ f : Comparator,
    l.comparer = some f ∧ env.handlers (conf.GetMatchHandler l.Match) = some f

/-- An error message mentions a word: the word occurs in it. -/
def Mentions (msg word : String) : Prop :=
  ∃ pre post : String, msg = pre ++ word ++ post

/-- The elements of a `[]any` with the stray strings removed: what is kept is
every element that is not a string, and every string that is "or" in some
letter case. -/
def withoutStrayStrings (xs : List GoAny) : List GoAny :=
  xs.filter (fun x => !fstype_IsType_string x || isOrToken x)

/-! ## A sample registry, sample conditions and sample specs -/

/-- A comparator that accepts every object. -/
def cmpTrue : Comparator := fun _ _ _ => (true, none)

/-- A comparator that rejects every object. -/
def cmpFalse : Comparator := fun _ _ _ => (false, none)

/-- A comparator that fails on every object, reporting `false` with the error. -/
def cmpErr : Comparator := fun _ _ _ => (false, some ⟨"cannot compare"⟩)

/-- A comparator that fails on every object, reporting `true` with the error. -/
def cmpTrueErr : Comparator := fun _ _ _ => (true, some ⟨"cannot compare"⟩)

/-- The configuration that resolves every operator name to itself. -/
def confId : i_Config := ⟨fun s => s⟩

/-- A single condition on the field `k` with the given comparator. -/
def leafOf (f : Comparator) : i_Cnd :=
  i_Cnd.cnd { Key := "k", Match := "m", Value := newCmpValue GoAny.nil, comparer := some f, conf := confId }

/-- A sample comparator for "gt": the object is a mapping whose integer field is
greater than the integer literal. -/
def cmpGt : Comparator := fun obj key val =>
  match obj, val with
  | GoAny.map m, some ⟨GoAny.int n⟩ =>
    match mapIndex m key with
    | (GoAny.int a, true) => (decide (n < a), none)
    | _ => (false, some ⟨"field is not an integer"⟩)
  | _, _ => (false, some ⟨"cannot compare"⟩)

/-- A sample comparator for "eq": the object is a mapping whose string field
equals the string literal. -/
def cmpEq : Comparator := fun obj key val =>
  match obj, val with
  | GoAny.map m, some ⟨GoAny.str s⟩ =>
    match mapIndex m key with
    | (GoAny.str a, true) => (decide (a = s), none)
    | _ => (false, some ⟨"field is not a string"⟩)
  | _, _ => (false, some ⟨"cannot compare"⟩)

/-- A sample environment: a registry with "gt" and "eq", and renderings that
print every value as "?". -/
def sampleEnv : Env :=
  { handlers := fun s => if s = "gt" then some cmpGt else if s = "eq" then some cmpEq else none
    fmtV := fun _ => "?"
    fmtSharpV := fun _ => "?" }

/-- The spec `{"key":"age","match":"gt","value":18}`. -/
def specAge : List (String × GoAny) :=
  [("key", GoAny.str "age"), ("match", GoAny.str "gt"), ("value", GoAny.int 18)]

/-- The spec `{"key":"status","match":"eq","value":"active"}`. -/
def specActive : List (String × GoAny) :=
  [("key", GoAny.str "status"), ("match", GoAny.str "eq"), ("value", GoAny.str "active")]

/-- The spec `{"col":"status","match":"eq","value":"pending"}`. -/
def specPending : List (String × GoAny) :=
  [("col", GoAny.str "status"), ("match", GoAny.str "eq"), ("value", GoAny.str "pending")]

/-- The spec `{"key":"age","match":"between","value":18}`, whose operator is not
in the sample registry. -/
def specUnknownOp : List (String × GoAny) :=
  [("key", GoAny.str "age"), ("match", GoAny.str "between"), ("value", GoAny.int 18)]

/-- The spec `{"key":"age","match":"between"}`: an operator that is not in the
sample registry, and no "value". -/
def specUnknownOpNoValue : List (String × GoAny) :=
  [("key", GoAny.str "age"), ("match", GoAny.str "between")]

/-- The spec `{"match":"eq","value":1}`, which has no field name. -/
def specNoKey : List (String × GoAny) :=
  [("match", GoAny.str "eq"), ("value", GoAny.int 1)]

/-- The spec `{"key":"age"}`: neither "match" nor "value". -/
def specOnlyKey : List (String × GoAny) :=
  [("key", GoAny.str "age")]

/-- The spec `{"key":"age","match":"gt"}`: a registered operator, and no "value". -/
def specNoValue : List (String × GoAny) :=
  [("key", GoAny.str "age"), ("match", GoAny.str "gt")]

/-- The spec `{"col":"","match":"gt","value":18}`: no "key", and an empty "col". -/
def specEmptyCol : List (String × GoAny) :=
  [("col", GoAny.str ""), ("match", GoAny.str "gt"), ("value", GoAny.int 18)]

/-- The rendering by the verb `%#v` of the nil interface, of a `bool` and of an
`int`; the sample prints every other value as "?". -/
def sampleSharpV : GoAny → String
  | GoAny.nil => "<nil>"
  | GoAny.bool true => "true"
  | GoAny.bool false => "false"
  | GoAny.int n => toString n
  | _ => "?"

/-- The sample environment with the rendering `sampleSharpV` for `%#v`. -/
def sampleEnvFmt : Env :=
  { handlers := sampleEnv.handlers, fmtV := sampleEnv.fmtV, fmtSharpV := sampleSharpV }

/-! ## Evaluation of groups -/

theorem compare_andCnds (cnds : List i_Cnd) (obj : GoAny) :
    (i_Cnd.andCnds cnds).compare obj = s_AndCnds.compare cnds obj := by
  simp [i_Cnd.compare]

theorem compare_orCnds (cnds : List i_Cnd) (obj : GoAny) :
    (i_Cnd.orCnds cnds).compare obj = s_OrCnds.compare cnds obj := by
  simp [i_Cnd.compare]

/-- Children that all return `(true, nil)` are passed over by the "and" loop. -/
theorem andCnds_compare_append (obj : GoAny) (pre rest : List i_Cnd)
    (hpre : ∀ p ∈ pre, p.compare obj = some (true, none)) :
    s_AndCnds.compare (pre ++ rest) obj = s_AndCnds.compare rest obj := by
  induction pre with
  | nil => rfl
  | cons p ps ih =>
    have hp : p.compare obj = some (true, none) := hpre p (List.mem_cons_self _ _)
    have hps : ∀ q ∈ ps, q.compare obj = some (true, none) :=
      fun q hq => hpre q (List.mem_cons_of_mem _ hq)
    simp [s_AndCnds.compare, hp, ih hps]

/-- Children that all return `(false, nil)` are passed over by the "or" loop. -/
theorem orCnds_compare_append (obj : GoAny) (pre rest : List i_Cnd)
    (hpre : ∀ p ∈ pre, p.compare obj = some (false, none)) :
    s_OrCnds.compare (pre ++ rest) obj = s_OrCnds.compare rest obj := by
  induction pre with
  | nil => rfl
  | cons p ps ih =>
    have hp : p.compare obj = some (false, none) := hpre p (List.mem_cons_self _ _)
    have hps : ∀ q ∈ ps, q.compare obj = some (false, none) :=
      fun q hq => hpre q (List.mem_cons_of_mem _ hq)
    simp [s_OrCnds.compare, hp, ih hps]

/-- C1: an "and" group returns the outcome fixed by the first child, from the
left, that does not return `(true, nil)`.  When the children `pre` all return
`(true, nil)`: the group of `pre` alone returns `(true, nil)`; if the next child
`c` returns `(false, nil)` the group returns `(false, nil)`, and if `c` returns
an error `e` (with either boolean) the group returns `(false, e)`, whatever the
later children `post` are. -/
theorem and_group_first_not_true (obj : GoAny) (pre post : List i_Cnd) (c : i_Cnd)
    (hpre : ∀ p ∈ pre, p.compare obj = some (true, none)) :
    (i_Cnd.andCnds pre).compare obj = some (true, none) ∧
    (c.compare obj = some (false, none) →
      (i_Cnd.andCnds (pre ++ c :: post)).compare obj = some (false, none)) ∧
    (∀ (b : Bool) (e : GoError), c.compare obj = some (b, some e) →
      (i_Cnd.andCnds (pre ++ c :: post)).compare obj = some (false, some e)) := by
  refine ⟨?_, ?_, ?_⟩
  · have h := andCnds_compare_append obj pre [] hpre
    rw [List.append_nil] at h
    rw [compare_andCnds, h]
    rfl
  · intro hc
    rw [compare_andCnds, andCnds_compare_append obj pre _ hpre]
    simp [s_AndCnds.compare, hc]
  · intro b e hc
    rw [compare_andCnds, andCnds_compare_append obj pre _ hpre]
    simp [s_AndCnds.compare, hc]

/-- Witness for C1: after a child returning `(true, nil)` and one returning
`(false, nil)`, a child whose comparator would return an error is not reached. -/
theorem and_group_first_not_true_witness :
    (i_Cnd.andCnds [leafOf cmpTrue, leafOf cmpFalse, leafOf cmpErr]).compare GoAny.nil
      = some (false, none) :=
  (and_group_first_not_true GoAny.nil [leafOf cmpTrue] [leafOf cmpErr] (leafOf cmpFalse)
    (by intro p hp; rw [List.mem_singleton] at hp; subst hp; rfl)).2.1 rfl

/-- C2: an "or" group returns the outcome fixed by the first child, from the
left, that does not return `(false, nil)`.  When the children `pre` all return
`(false, nil)`: the group of `pre` alone returns `(false, nil)`; if the next
child `c` returns `(true, nil)` the group returns `(true, nil)`, and if `c`
returns an error `e` (with either boolean) the group returns `(false, e)`,
whatever the later children `post` are. -/
theorem or_group_first_not_false (obj : GoAny) (pre post : List i_Cnd) (c : i_Cnd)
    (hpre : ∀ p ∈ pre, p.compare obj = some (false, none)) :
    (i_Cnd.orCnds pre).compare obj = some (false, none) ∧
    (c.compare obj = some (true, none) →
      (i_Cnd.orCnds (pre ++ c :: post)).compare obj = some (true, none)) ∧
    (∀ (b : Bool) (e : GoError), c.compare obj = some (b, some e) →
      (i_Cnd.orCnds (pre ++ c :: post)).compare obj = some (false, some e)) := by
  refine ⟨?_, ?_, ?_⟩
  · have h := orCnds_compare_append obj pre [] hpre
    rw [List.append_nil] at h
    rw [compare_orCnds, h]
    rfl
  · intro hc
    rw [compare_orCnds, orCnds_compare_append obj pre _ hpre]
    simp [s_OrCnds.compare, hc]
  · intro b e hc
    rw [compare_orCnds, orCnds_compare_append obj pre _ hpre]
    simp [s_OrCnds.compare, hc]

/-- Witness for C2: after a child returning `(false, nil)` and one returning
`(true, nil)`, a child whose comparator would return an error is not reached. -/
theorem or_group_first_not_false_witness :
    (i_Cnd.orCnds [leafOf cmpFalse, leafOf cmpTrue, leafOf cmpErr]).compare GoAny.nil
      = some (true, none) :=
  (or_group_first_not_false GoAny.nil [leafOf cmpFalse] [leafOf cmpErr] (leafOf cmpTrue)
    (by intro p hp; rw [List.mem_singleton] at hp; subst hp; rfl)).2.1 rfl

/-! ## Errors of comparators -/

mutual
/-- An error returned by a comparator call made during `compare` is the error
`compare` returns; a group returns it with `false`, a single condition with the
boolean of its comparator. -/
theorem calls_error_compare : ∀ (t : i_Cnd) (obj : GoAny) (b : Bool) (e : GoError),
    (b, some e) ∈ t.calls obj →
    t.compare obj = some (if t.isLeaf then b else false, some e)
  | i_Cnd.nil, obj, b, e, h => by simp [i_Cnd.calls] at h
  | i_Cnd.cnd c, obj, b, e, h => by
    cases hc : c.comparer with
    | none => simp [i_Cnd.calls, hc] at h
    | some f =>
      simp only [i_Cnd.calls, hc, List.mem_singleton] at h
      simp [i_Cnd.compare, s_Cnd.compare, hc, i_Cnd.isLeaf, ← h]
  | i_Cnd.andCnds cnds, obj, b, e, h => by
    simp only [i_Cnd.calls] at h
    simp [i_Cnd.compare, i_Cnd.isLeaf, andCalls_error_compare cnds obj b e h]
  | i_Cnd.orCnds cnds, obj, b, e, h => by
    simp only [i_Cnd.calls] at h
    simp [i_Cnd.compare, i_Cnd.isLeaf, orCalls_error_compare cnds obj b e h]
/-- The same for the loop of an "and" group. -/
theorem andCalls_error_compare : ∀ (cnds : List i_Cnd) (obj : GoAny) (b : Bool) (e : GoError),
    (b, some e) ∈ s_AndCnds.calls cnds obj →
    s_AndCnds.compare cnds obj = some (false, some e)
  | [], obj, b, e, h => by simp [s_AndCnds.calls] at h
  | c :: rest, obj, b, e, h => by
    simp only [s_AndCnds.calls, List.mem_append] at h
    rcases h with h | h
    · have hc := calls_error_compare c obj b e h
      simp [s_AndCnds.compare, hc]
    · cases hc : i_Cnd.compare c obj with
      | none => simp [hc] at h
      | some r =>
        obtain ⟨ok, err⟩ := r
        cases err with
        | some e2 => simp [hc] at h
        | none =>
          cases ok with
          | false => simp [hc] at h
          | true =>
            simp only [hc] at h
            simp [s_AndCnds.compare, hc, andCalls_error_compare rest obj b e h]
/-- The same for the loop of an "or" group. -/
theorem orCalls_error_compare : ∀ (cnds : List i_Cnd) (obj : GoAny) (b : Bool) (e : GoError),
    (b, some e) ∈ s_OrCnds.calls cnds obj →
    s_OrCnds.compare cnds obj = some (false, some e)
  | [], obj, b, e, h => by simp [s_OrCnds.calls] at h
  | c :: rest, obj, b, e, h => by
    simp only [s_OrCnds.calls, List.mem_append] at h
    rcases h with h | h
    · have hc := calls_error_compare c obj b e h
      simp [s_OrCnds.compare, hc]
    · cases hc : i_Cnd.compare c obj with
      | none => simp [hc] at h
      | some r =>
        obtain ⟨ok, err⟩ := r
        cases err with
        | some e2 => simp [hc] at h
        | none =>
          cases ok with
          | true => simp [hc] at h
          | false =>
            simp only [hc] at h
            simp [s_OrCnds.compare, hc, orCalls_error_compare rest obj b e h]
end

/-- The loop of an "and" group never returns `true` with an error. -/
theorem andCnds_compare_not_true_error (cnds : List i_Cnd) (obj : GoAny) (e : GoError) :
    s_AndCnds.compare cnds obj ≠ some (true, some e) := by
  induction cnds with
  | nil => simp [s_AndCnds.compare]
  | cons c rest ih =>
    cases hc : i_Cnd.compare c obj with
    | none => simp [s_AndCnds.compare, hc]
    | some r =>
      obtain ⟨ok, err⟩ := r
      cases err with
      | some e2 => simp [s_AndCnds.compare, hc]
      | none =>
        cases ok with
        | false => simp [s_AndCnds.compare, hc]
        | true => simpa [s_AndCnds.compare, hc] using ih

/-- The loop of an "or" group never returns `true` with an error. -/
theorem orCnds_compare_not_true_error (cnds : List i_Cnd) (obj : GoAny) (e : GoError) :
    s_OrCnds.compare cnds obj ≠ some (true, some e) := by
  induction cnds with
  | nil => simp [s_OrCnds.compare]
  | cons c rest ih =>
    cases hc : i_Cnd.compare c obj with
    | none => simp [s_OrCnds.compare, hc]
    | some r =>
      obtain ⟨ok, err⟩ := r
      cases err with
      | some e2 => simp [s_OrCnds.compare, hc]
      | none =>
        cases ok with
        | true => simp [s_OrCnds.compare, hc]
        | false => simpa [s_OrCnds.compare, hc] using ih

/-- C3, as the code has it: when a comparator call made during `compare` on a
tree returns an error `e` (with boolean `b`), `compare` on the tree returns `e`
itself as its error, together with `false` when the tree is a group and with
the comparator's own boolean `b` when the tree is a single condition; and
`compare` returns `true` together with an error only on a single condition. -/
theorem comparator_error_reaches_caller (t : i_Cnd) (obj : GoAny) (b : Bool) (e : GoError)
    (h : (b, some e) ∈ t.calls obj) :
    t.compare obj = some (if t.isLeaf then b else false, some e) ∧
    (∀ e2 : GoError, t.compare obj = some (true, some e2) → t.isLeaf = true) := by
  refine ⟨calls_error_compare t obj b e h, ?_⟩
  intro e2 h2
  cases t with
  | nil => simp [i_Cnd.compare] at h2
  | cnd c => rfl
  | andCnds cnds =>
    rw [compare_andCnds] at h2
    exact absurd h2 (andCnds_compare_not_true_error cnds obj e2)
  | orCnds cnds =>
    rw [compare_orCnds] at h2
    exact absurd h2 (orCnds_compare_not_true_error cnds obj e2)

/-- Witness for C3: in an "or" group nested in an "and" group, the error of the
comparator reached third is returned with `false`. -/
theorem comparator_error_reaches_caller_witness :
    (i_Cnd.andCnds [leafOf cmpTrue, i_Cnd.orCnds [leafOf cmpFalse, leafOf cmpTrueErr],
        leafOf cmpTrue]).compare GoAny.nil
      = some (false, some ⟨"cannot compare"⟩) :=
  (comparator_error_reaches_caller
    (i_Cnd.andCnds [leafOf cmpTrue, i_Cnd.orCnds [leafOf cmpFalse, leafOf cmpTrueErr],
        leafOf cmpTrue])
    GoAny.nil true ⟨"cannot compare"⟩
    (by simp [i_Cnd.calls, s_AndCnds.calls, s_OrCnds.calls, i_Cnd.compare, s_Cnd.compare,
          s_AndCnds.compare, s_OrCnds.compare, leafOf, cmpTrue, cmpFalse, cmpTrueErr])).1

/-- Counterexample to C3 as stated: on a tree that is a single condition whose
comparator returns `(true, e)`, the call is reached and returns the error `e`,
and `compare` returns `(true, e)`, a non-nil error together with `true`, not
`(false, e)`. -/
theorem leaf_error_with_true :
    (true, some (⟨"cannot compare"⟩ : GoError)) ∈ (leafOf cmpTrueErr).calls GoAny.nil ∧
    (leafOf cmpTrueErr).compare GoAny.nil = some (true, some ⟨"cannot compare"⟩) ∧
    (leafOf cmpTrueErr).compare GoAny.nil ≠ some (false, some ⟨"cannot compare"⟩) := by
  simp [leafOf, cmpTrueErr, i_Cnd.calls, i_Cnd.compare, s_Cnd.compare, newCmpValue]

/-! ## Single conditions -/

theorem fieldEntry_eq (m : List (String × GoAny)) :
    (if (!(mapIndex m "key").2) = true then mapIndex m "col" else mapIndex m "key")
      = fieldEntry m := by
  unfold fieldEntry
  cases (mapIndex m "key").2 <;> simp

theorem parseCnd_map (env : Env) (conf : i_Config) (m : List (String × GoAny)) :
    parseCnd env conf (GoAny.map m) = s_Cnd.parse env (newCnd conf) m := by
  rw [parseCnd]

/-- A mapping with a non-empty string field name, a string "match", a "value"
and a registered comparator parses into the corresponding single condition. -/
theorem s_Cnd_parse_ok (env : Env) (conf : i_Config) (m : List (String × GoAny))
    (key mtch : String) (val : GoAny) (f : Comparator)
    (hk : fieldEntry m = (GoAny.str key, true)) (hne : key ≠ "")
    (hm : mapIndex m "match" = (GoAny.str mtch, true))
    (hv : mapIndex m "value" = (val, true))
    (hf : env.handlers (conf.GetMatchHandler mtch) = some f) :
    s_Cnd.parse env (newCnd conf) m = (i_Cnd.cnd (leafFor conf key mtch val f), none) := by
  unfold s_Cnd.parse
  simp only [fieldEntry_eq, hk, hm, hv]
  simp [fstype_IsType_string, assertString, hne, newCnd, hf, leafFor]

/-- A parse of a mapping that returns no error went through every check. -/
theorem s_Cnd_parse_inv (env : Env) (conf : i_Config) (m : List (String × GoAny))
    (t : i_Cnd) (h : s_Cnd.parse env (newCnd conf) m = (t, none)) :
    ∃ (key mtch : String) (val : GoAny) (f : Comparator),
      fieldEntry m = (GoAny.str key, true) ∧ key ≠ "" ∧
      mapIndex m "match" = (GoAny.str mtch, true) ∧
      mapIndex m "value" = (val, true) ∧
      env.handlers (conf.GetMatchHandler mtch) = some f ∧
      t = i_Cnd.cnd (leafFor conf key mtch val f) := by
  unfold s_Cnd.parse at h
  simp only [fieldEntry_eq] at h
  rcases hfe : fieldEntry m with ⟨v, ok⟩
  rcases hma : mapIndex m "match" with ⟨mv, mok⟩
  rcases hva : mapIndex m "value" with ⟨val, vok⟩
  simp only [hfe, hma, hva] at h
  cases ok with
  | false => simp at h
  | true =>
    cases v with
    | str key =>
      cases mok with
      | false =>
        by_cases hkey : key = "" <;> simp [fstype_IsType_string, assertString, hkey] at h
      | true =>
        cases mv with
        | str mtch =>
          cases vok with
          | false =>
            by_cases hkey : key = "" <;> simp [fstype_IsType_string, assertString, hkey] at h
          | true =>
            by_cases hkey : key = ""
            · simp [fstype_IsType_string, assertString, hkey] at h
            · cases hf : env.handlers (conf.GetMatchHandler mtch) with
              | none => simp [fstype_IsType_string, assertString, hkey, newCnd, hf] at h
              | some f =>
                simp [fstype_IsType_string, assertString, hkey, newCnd, hf] at h
                exact ⟨key, mtch, val, f, rfl, hkey, rfl, rfl, hf, by rw [← h]; rfl⟩
        | _ =>
          by_cases hkey : key = "" <;> simp [fstype_IsType_string, assertString, hkey] at h
    | _ => simp [fstype_IsType_string] at h

/-! ## Composite conditions -/

/-- The "and" loop, when every element parses without error. -/
theorem andCnds_parse_all_ok (env : Env) (conf : i_Config) (xs : List GoAny) :
    ∀ (cnds : List i_Cnd), (∀ x ∈ xs, (parseCnd env conf x).2 = none) →
      s_AndCnds.parse env conf cnds xs
        = (i_Cnd.andCnds (cnds ++ xs.map (fun x => (parseCnd env conf x).1)), none) := by
  induction xs with
  | nil => intro cnds _; simp [s_AndCnds.parse]
  | cons x rest ih =>
    intro cnds h
    have hx : (parseCnd env conf x).2 = none := h x (List.mem_cons_self _ _)
    have hrest : ∀ y ∈ rest, (parseCnd env conf y).2 = none :=
      fun y hy => h y (List.mem_cons_of_mem _ hy)
    rw [s_AndCnds.parse]
    simp [hx, ih _ hrest]

/-- The "or" loop, when every element parses without error. -/
theorem orCnds_parse_all_ok (env : Env) (conf : i_Config) (xs : List GoAny) :
    ∀ (cnds : List i_Cnd), (∀ x ∈ xs, (parseCnd env conf x).2 = none) →
      s_OrCnds.parse env conf cnds xs
        = (i_Cnd.orCnds (cnds ++ xs.map (fun x => (parseCnd env conf x).1)), none) := by
  induction xs with
  | nil => intro cnds _; simp [s_OrCnds.parse]
  | cons x rest ih =>
    intro cnds h
    have hx : (parseCnd env conf x).2 = none := h x (List.mem_cons_self _ _)
    have hrest : ∀ y ∈ rest, (parseCnd env conf y).2 = none :=
      fun y hy => h y (List.mem_cons_of_mem _ hy)
    rw [s_OrCnds.parse]
    simp [hx, ih _ hrest]

/-- The "and" loop stops at the first element that parses with an error. -/
theorem andCnds_parse_first_error (env : Env) (conf : i_Config) (pre post : List GoAny)
    (x : GoAny) (e : GoError) (hx : (parseCnd env conf x).2 = some e) :
    ∀ (cnds : List i_Cnd), (∀ p ∈ pre, (parseCnd env conf p).2 = none) →
      s_AndCnds.parse env conf cnds (pre ++ x :: post) = (i_Cnd.nil, some e) := by
  induction pre with
  | nil =>
    intro cnds _
    rw [List.nil_append, s_AndCnds.parse]
    simp [hx]
  | cons p ps ih =>
    intro cnds h
    have hp : (parseCnd env conf p).2 = none := h p (List.mem_cons_self _ _)
    have hps : ∀ q ∈ ps, (parseCnd env conf q).2 = none :=
      fun q hq => h q (List.mem_cons_of_mem _ hq)
    rw [List.cons_append, s_AndCnds.parse]
    simp [hp, ih _ hps]

/-- The "or" loop stops at the first element that parses with an error. -/
theorem orCnds_parse_first_error (env : Env) (conf : i_Config) (pre post : List GoAny)
    (x : GoAny) (e : GoError) (hx : (parseCnd env conf x).2 = some e) :
    ∀ (cnds : List i_Cnd), (∀ p ∈ pre, (parseCnd env conf p).2 = none) →
      s_OrCnds.parse env conf cnds (pre ++ x :: post) = (i_Cnd.nil, some e) := by
  induction pre with
  | nil =>
    intro cnds _
    rw [List.nil_append, s_OrCnds.parse]
    simp [hx]
  | cons p ps ih =>
    intro cnds h
    have hp : (parseCnd env conf p).2 = none := h p (List.mem_cons_self _ _)
    have hps : ∀ q ∈ ps, (parseCnd env conf q).2 = none :=
      fun q hq => h q (List.mem_cons_of_mem _ hq)
    rw [List.cons_append, s_OrCnds.parse]
    simp [hp, ih _ hps]

/-- A spec that is neither a mapping nor a `[]any` is invalid. -/
theorem parseCnd_invalid (env : Env) (conf : i_Config) (x : GoAny)
    (hm : ∀ m, x ≠ GoAny.map m) (hs : ∀ xs, x ≠ GoAny.slice xs) :
    parseCnd env conf x
      = (i_Cnd.nil, some ⟨"invalid search condition(\"" ++ env.fmtSharpV x ++ "\")"⟩) := by
  cases x with
  | map m => exact absurd rfl (hm m)
  | slice xs => exact absurd rfl (hs xs)
  | nil => rw [parseCnd] <;> intro _ h <;> cases h
  | bool b => rw [parseCnd] <;> intro _ h <;> cases h
  | int n => rw [parseCnd] <;> intro _ h <;> cases h
  | str s => rw [parseCnd] <;> intro _ h <;> cases h
  | other tag => rw [parseCnd] <;> intro _ h <;> cases h

/-- `parseCnd` on a `[]any`, with the first loop summarised. -/
theorem parseCnd_slice (env : Env) (conf : i_Config) (xs : List GoAny) :
    parseCnd env conf (GoAny.slice xs)
      = if xs.any isOrToken then s_OrCnds.parse env conf [] (nonStrings xs)
        else s_AndCnds.parse env conf [] (nonStrings xs) := by
  rw [parseCnd]
  simp [scanLoop_fst, scanLoop_snd]

/-- A `[]any` whose non-string elements all parse without error. -/
theorem parseCnd_slice_all_ok (env : Env) (conf : i_Config) (xs : List GoAny)
    (h : ∀ x ∈ nonStrings xs, (parseCnd env conf x).2 = none) :
    parseCnd env conf (GoAny.slice xs)
      = (if xs.any isOrToken then i_Cnd.orCnds (childrenOf env conf xs)
         else i_Cnd.andCnds (childrenOf env conf xs), none) := by
  rw [parseCnd_slice]
  by_cases hor : xs.any isOrToken = true
  · simp only [hor, if_true]
    rw [orCnds_parse_all_ok env conf _ [] h]
    simp [childrenOf]
  · simp only [hor, Bool.false_eq_true, if_false]
    rw [andCnds_parse_all_ok env conf _ [] h]
    simp [childrenOf]

theorem nonStrings_append (xs ys : List GoAny) :
    nonStrings (xs ++ ys) = nonStrings xs ++ nonStrings ys := by
  simp [nonStrings]

theorem nonStrings_cons_of_string (s : String) (xs : List GoAny) :
    nonStrings (GoAny.str s :: xs) = nonStrings xs := by
  simp [nonStrings, fstype_IsType_string]

theorem nonStrings_cons_of_not_string (x : GoAny) (xs : List GoAny)
    (hx : fstype_IsType_string x = false) : nonStrings (x :: xs) = x :: nonStrings xs := by
  simp [nonStrings, hx]

/-- A `[]any` with an element that is not a string and parses with an error,
after elements whose non-strings parse without error. -/
theorem parseCnd_slice_first_error (env : Env) (conf : i_Config) (pre post : List GoAny)
    (x : GoAny) (e : GoError) (hs : fstype_IsType_string x = false)
    (hpre : ∀ p ∈ nonStrings pre, (parseCnd env conf p).2 = none)
    (hx : (parseCnd env conf x).2 = some e) :
    parseCnd env conf (GoAny.slice (pre ++ x :: post)) = (i_Cnd.nil, some e) := by
  rw [parseCnd_slice, nonStrings_append, nonStrings_cons_of_not_string x post hs,
    andCnds_parse_first_error env conf _ _ x e hx [] hpre,
    orCnds_parse_first_error env conf _ _ x e hx [] hpre]
  simp

theorem parse_specAge :
    parseCnd sampleEnv confId (GoAny.map specAge)
      = (i_Cnd.cnd (leafFor confId "age" "gt" (GoAny.int 18) cmpGt), none) := by
  rw [parseCnd_map]
  exact s_Cnd_parse_ok sampleEnv confId specAge "age" "gt" (GoAny.int 18) cmpGt
    rfl (by decide) rfl rfl rfl

theorem parse_specActive :
    parseCnd sampleEnv confId (GoAny.map specActive)
      = (i_Cnd.cnd (leafFor confId "status" "eq" (GoAny.str "active") cmpEq), none) := by
  rw [parseCnd_map]
  exact s_Cnd_parse_ok sampleEnv confId specActive "status" "eq" (GoAny.str "active") cmpEq
    rfl (by decide) rfl rfl rfl

theorem parse_specPending :
    parseCnd sampleEnv confId (GoAny.map specPending)
      = (i_Cnd.cnd (leafFor confId "status" "eq" (GoAny.str "pending") cmpEq), none) := by
  rw [parseCnd_map]
  exact s_Cnd_parse_ok sampleEnv confId specPending "status" "eq" (GoAny.str "pending") cmpEq
    rfl (by decide) rfl rfl rfl

/-! ## Theorems on single conditions -/

/-- C4: when a mapping spec parses into a single condition, evaluating it on an
object returns exactly the pair that the comparator registered under the
resolved operator name returns on the object, the spec's field name and the
comparison value wrapping the spec's "value" literal. -/
theorem leaf_compare_is_registered_comparator (env : Env) (conf : i_Config)
    (m : List (String × GoAny)) (t : i_Cnd) (obj : GoAny)
    (h : parseCnd env conf (GoAny.map m) = (t, none)) :
    ∃ (key mtch : String) (val : GoAny) (f : Comparator),
      fieldEntry m = (GoAny.str key, true) ∧
      mapIndex m "match" = (GoAny.str mtch, true) ∧
      mapIndex m "value" = (val, true) ∧
      env.handlers (conf.GetMatchHandler mtch) = some f ∧
      t.compare obj = some (f obj key (newCmpValue val)) := by
  rw [parseCnd_map] at h
  obtain ⟨key, mtch, val, f, hk, _, hm, hv, hf, ht⟩ := s_Cnd_parse_inv env conf m t h
  refine ⟨key, mtch, val, f, hk, hm, hv, hf, ?_⟩
  subst ht
  simp [i_Cnd.compare, s_Cnd.compare, leafFor]

/-- Witness for C4: the spec `{"key":"age","match":"gt","value":18}` with the
sample "gt" comparator accepts `{age:20}` and rejects `{age:15}`. -/
theorem leaf_compare_is_registered_comparator_witness :
    (∃ (key mtch : String) (val : GoAny) (f : Comparator),
      fieldEntry specAge = (GoAny.str key, true) ∧
      mapIndex specAge "match" = (GoAny.str mtch, true) ∧
      mapIndex specAge "value" = (val, true) ∧
      sampleEnv.handlers (confId.GetMatchHandler mtch) = some f ∧
      (i_Cnd.cnd (leafFor confId "age" "gt" (GoAny.int 18) cmpGt)).compare
          (GoAny.map [("age", GoAny.int 20)])
        = some (f (GoAny.map [("age", GoAny.int 20)]) key (newCmpValue val))) ∧
    (parseCnd sampleEnv confId (GoAny.map specAge)).1.compare (GoAny.map [("age", GoAny.int 20)])
      = some (true, none) ∧
    (parseCnd sampleEnv confId (GoAny.map specAge)).1.compare (GoAny.map [("age", GoAny.int 15)])
      = some (false, none) :=
  ⟨leaf_compare_is_registered_comparator sampleEnv confId specAge _
      (GoAny.map [("age", GoAny.int 20)]) parse_specAge,
    by rw [parse_specAge]; rfl, by rw [parse_specAge]; rfl⟩

/-- C5: a mapping spec parses without error exactly when its field-name entry
(the entry under "key" if present, otherwise the entry under "col") is a
non-empty string, "match" is present and is a string, "value" is present, and
the operator name resolved from "match" has a comparator in the registry; the
node then is the single condition with that field name as `Key`, that match
string as `Match`, the comparison value wrapping the literal as `Value` and the
registered comparator as `comparer`. -/
theorem mapping_parse_succeeds_iff (env : Env) (conf : i_Config) (m : List (String × GoAny)) :
    ((∃ t, parseCnd env conf (GoAny.map m) = (t, none)) ↔
      ∃ (key mtch : String) (val : GoAny) (f : Comparator),
        fieldEntry m = (GoAny.str key, true) ∧ key ≠ "" ∧
        mapIndex m "match" = (GoAny.str mtch, true) ∧
        mapIndex m "value" = (val, true) ∧
        env.handlers (conf.GetMatchHandler mtch) = some f) ∧
    (∀ (t : i_Cnd), parseCnd env conf (GoAny.map m) = (t, none) →
      ∃ (key mtch : String) (val : GoAny) (f : Comparator),
        fieldEntry m = (GoAny.str key, true) ∧
        mapIndex m "match" = (GoAny.str mtch, true) ∧
        mapIndex m "value" = (val, true) ∧
        env.handlers (conf.GetMatchHandler mtch) = some f ∧
        t = i_Cnd.cnd { Key := key, Match := mtch, Value := newCmpValue val,
                        comparer := some f, conf := conf }) := by
  rw [parseCnd_map]
  refine ⟨⟨?_, ?_⟩, ?_⟩
  · rintro ⟨t, ht⟩
    obtain ⟨key, mtch, val, f, hk, hne, hm, hv, hf, _⟩ := s_Cnd_parse_inv env conf m t ht
    exact ⟨key, mtch, val, f, hk, hne, hm, hv, hf⟩
  · rintro ⟨key, mtch, val, f, hk, hne, hm, hv, hf⟩
    exact ⟨_, s_Cnd_parse_ok env conf m key mtch val f hk hne hm hv hf⟩
  · intro t ht
    obtain ⟨key, mtch, val, f, hk, _, hm, hv, hf, htt⟩ := s_Cnd_parse_inv env conf m t ht
    exact ⟨key, mtch, val, f, hk, hm, hv, hf, htt⟩

/-- C10, as the code has it: for a mapping spec whose field name is a non-empty
string, whose "match" is a string and which has a "value" entry, if the operator
name resolved from "match" has no comparator in the registry, the parse returns
no node and the error built by `makeErrLegalMatcher` from the field name and the
match string, "illegal matcher for key <key>, match <match>". -/
theorem unknown_operator_is_parse_error (env : Env) (conf : i_Config)
    (m : List (String × GoAny)) (key mtch : String) (val : GoAny)
    (hk : fieldEntry m = (GoAny.str key, true)) (hne : key ≠ "")
    (hm : mapIndex m "match" = (GoAny.str mtch, true))
    (hv : mapIndex m "value" = (val, true))
    (hf : env.handlers (conf.GetMatchHandler mtch) = none) :
    parseCnd env conf (GoAny.map m) = (i_Cnd.nil, some (makeErrLegalMatcher key mtch)) ∧
    (makeErrLegalMatcher key mtch).msg
      = "illegal matcher for key " ++ key ++ ", match " ++ mtch := by
  refine ⟨?_, rfl⟩
  rw [parseCnd_map]
  unfold s_Cnd.parse
  simp only [fieldEntry_eq, hk, hm, hv]
  simp [fstype_IsType_string, assertString, hne, newCnd, hf]

/-- Witness for C10: `{"key":"age","match":"between","value":18}` with the sample
registry, which has no "between". -/
theorem unknown_operator_is_parse_error_witness :
    parseCnd sampleEnv confId (GoAny.map specUnknownOp)
        = (i_Cnd.nil, some (makeErrLegalMatcher "age" "between")) ∧
    (makeErrLegalMatcher "age" "between").msg
      = "illegal matcher for key " ++ "age" ++ ", match " ++ "between" :=
  unknown_operator_is_parse_error sampleEnv confId specUnknownOp "age" "between" (GoAny.int 18)
    rfl (by decide) rfl rfl rfl

/-- Counterexample to C10 as stated: `{"key":"age","match":"between"}` has a
non-empty string field name and a string "match" whose operator is not
registered, and the parse returns the error "condition value is not indicated",
not the "illegal matcher" error. -/
theorem unknown_operator_without_value :
    fieldEntry specUnknownOpNoValue = (GoAny.str "age", true) ∧
    mapIndex specUnknownOpNoValue "match" = (GoAny.str "between", true) ∧
    sampleEnv.handlers (confId.GetMatchHandler "between") = none ∧
    parseCnd sampleEnv confId (GoAny.map specUnknownOpNoValue)
      = (i_Cnd.nil, some (errors_New "condition value is not indicated")) ∧
    errors_New "condition value is not indicated" ≠ makeErrLegalMatcher "age" "between" := by
  refine ⟨rfl, rfl, rfl, ?_, by decide⟩
  rw [parseCnd_map]
  simp [s_Cnd.parse, specUnknownOpNoValue, mapIndex, fstype_IsType_string, assertString, newCnd]

/-! ## The token "or" -/

/-- A character whose lower-case form is `l` is `l` itself or the character 32
code points below `l`. -/
theorem toLower_eq_lower (c l : Char) (h : c.toLower = l) :
    c = l ∨ c.toNat + 32 = l.toNat := by
  unfold Char.toLower at h
  by_cases hc : c.toNat ≥ 65 ∧ c.toNat ≤ 90
  · right
    simp only [hc, and_self, if_true] at h
    have h2 := congrArg Char.toNat h
    have hv : (c.toNat + 32).isValidChar := by left; omega
    have h4 : (Char.ofNat (c.toNat + 32)).toNat = c.toNat + 32 := by
      unfold Char.ofNat
      rw [dif_pos hv]
      rfl
    rw [h4] at h2
    exact h2
  · left
    simpa [hc] using h

theorem char_eq_of_toNat (c d : Char) (h : c.toNat = d.toNat) : c = d := by
  apply Char.ext
  apply UInt32.ext
  exact h

theorem toLower_eq_o (c : Char) (h : c.toLower = 'o') : c = 'o' ∨ c = 'O' := by
  rcases toLower_eq_lower c 'o' h with h1 | h1
  · exact Or.inl h1
  · right
    apply char_eq_of_toNat
    have : ('o' : Char).toNat = 111 := rfl
    have : ('O' : Char).toNat = 79 := rfl
    omega

theorem toLower_eq_r (c : Char) (h : c.toLower = 'r') : c = 'r' ∨ c = 'R' := by
  rcases toLower_eq_lower c 'r' h with h1 | h1
  · exact Or.inl h1
  · right
    apply char_eq_of_toNat
    have : ('r' : Char).toNat = 114 := rfl
    have : ('R' : Char).toNat = 82 := rfl
    omega

/-- The strings whose lower-case form is "or". -/
theorem strings_ToLower_eq_or (s : String) :
    strings_ToLower s = "or" ↔ s = "or" ∨ s = "Or" ∨ s = "oR" ∨ s = "OR" := by
  constructor
  · intro h
    have hd : s.data.map Char.toLower = ['o', 'r'] := congrArg String.data h
    obtain ⟨cs⟩ := s
    simp only at hd
    cases cs with
    | nil => simp at hd
    | cons a t1 =>
      cases t1 with
      | nil => simp at hd
      | cons b t2 =>
        cases t2 with
        | cons c t3 => simp at hd
        | nil =>
          simp only [List.map, List.cons.injEq, and_true] at hd
          rcases toLower_eq_o a hd.1 with ha | ha <;>
            rcases toLower_eq_r b hd.2 with hb | hb <;>
            subst ha <;> subst hb <;> decide
  · rintro (h | h | h | h) <;> subst h <;> decide

/-- The elements that switch a sequence spec to an "or" group. -/
theorem isOrToken_iff (x : GoAny) :
    isOrToken x = true ↔
      x = GoAny.str "or" ∨ x = GoAny.str "Or" ∨ x = GoAny.str "oR" ∨ x = GoAny.str "OR" := by
  cases x with
  | str s =>
    simp only [isOrToken, fstype_IsType_string, assertString, Bool.true_and, decide_eq_true_eq,
      strings_ToLower_eq_or, GoAny.str.injEq]
  | _ => simp [isOrToken, fstype_IsType_string]

/-! ## Theorems on composite conditions -/

/-- In a list with an element that parses with an error, there is a first one. -/
theorem exists_first_error (env : Env) (conf : i_Config) (ys : List GoAny)
    (h : ∃ y ∈ ys, (parseCnd env conf y).2 ≠ none) :
    ∃ (pre post : List GoAny) (y : GoAny) (e : GoError),
      ys = pre ++ y :: post ∧ (∀ p ∈ pre, (parseCnd env conf p).2 = none) ∧
      (parseCnd env conf y).2 = some e := by
  induction ys with
  | nil => simp at h
  | cons a rest ih =>
    cases ha : (parseCnd env conf a).2 with
    | some e => exact ⟨[], rest, a, e, rfl, by simp, ha⟩
    | none =>
      have hrest : ∃ y ∈ rest, (parseCnd env conf y).2 ≠ none := by
        obtain ⟨y, hy, hne⟩ := h
        rcases List.mem_cons.mp hy with hya | hyr
        · subst hya; exact absurd ha hne
        · exact ⟨y, hyr, hne⟩
      obtain ⟨pre, post, y, e, hsplit, hpre, hy⟩ := ih hrest
      refine ⟨a :: pre, post, y, e, by rw [hsplit]; rfl, ?_, hy⟩
      intro p hp
      rcases List.mem_cons.mp hp with hpa | hpp
      · subst hpa; exact ha
      · exact hpre p hpp

/-- When a `[]any` parses without error, so does each of its non-string elements. -/
theorem parseCnd_slice_ok_elements (env : Env) (conf : i_Config) (xs : List GoAny) (t : i_Cnd)
    (h : parseCnd env conf (GoAny.slice xs) = (t, none)) :
    ∀ x ∈ nonStrings xs, (parseCnd env conf x).2 = none := by
  by_contra hcon
  push_neg at hcon
  obtain ⟨pre, post, y, e, hsplit, hpre, hy⟩ := exists_first_error env conf (nonStrings xs) hcon
  rw [parseCnd_slice, hsplit, andCnds_parse_first_error env conf pre post y e hy [] hpre,
    orCnds_parse_first_error env conf pre post y e hy [] hpre] at h
  simp at h

/-- C6: for a sequence spec whose non-string elements all parse without error:
if no element is a string equal to "or" in some letter case, `parseCnd` returns
the "and" group of the parsed children; if some element is such a string, at
any position and any number of times, it returns the "or" group of the same
children.  The strings equal to "or" in some letter case are "or", "Or", "oR"
and "OR". -/
theorem sequence_group_kind (env : Env) (conf : i_Config) (xs : List GoAny)
    (hall : ∀ x ∈ nonStrings xs, (parseCnd env conf x).2 = none) :
    ((∀ x ∈ xs, isOrToken x = false) →
      parseCnd env conf (GoAny.slice xs) = (i_Cnd.andCnds (childrenOf env conf xs), none)) ∧
    ((∃ x ∈ xs, isOrToken x = true) →
      parseCnd env conf (GoAny.slice xs) = (i_Cnd.orCnds (childrenOf env conf xs), none)) ∧
    (∀ x : GoAny, isOrToken x = true ↔
      x = GoAny.str "or" ∨ x = GoAny.str "Or" ∨ x = GoAny.str "oR" ∨ x = GoAny.str "OR") := by
  refine ⟨?_, ?_, isOrToken_iff⟩
  · intro hno
    have hany : xs.any isOrToken = false := by
      rw [List.any_eq_false]
      intro x hx
      simp [hno x hx]
    rw [parseCnd_slice_all_ok env conf xs hall, hany]
    simp
  · intro hsome
    have hany : xs.any isOrToken = true := List.any_eq_true.mpr hsome
    rw [parseCnd_slice_all_ok env conf xs hall, hany]
    simp

/-- Witness for C6: the same two specs give an "and" group without the token and
an "or" group with the token "OR" in the middle. -/
theorem sequence_group_kind_witness :
    parseCnd sampleEnv confId (GoAny.slice [GoAny.map specActive, GoAny.map specPending])
      = (i_Cnd.andCnds (childrenOf sampleEnv confId
          [GoAny.map specActive, GoAny.map specPending]), none) ∧
    parseCnd sampleEnv confId
        (GoAny.slice [GoAny.map specActive, GoAny.str "OR", GoAny.map specPending])
      = (i_Cnd.orCnds (childrenOf sampleEnv confId
          [GoAny.map specActive, GoAny.str "OR", GoAny.map specPending]), none) :=
  ⟨(sequence_group_kind sampleEnv confId [GoAny.map specActive, GoAny.map specPending]
      (by
        intro x hx
        simp only [nonStrings, List.filter, fstype_IsType_string, Bool.not_false,
          List.mem_cons, List.mem_singleton, List.not_mem_nil, or_false] at hx
        rcases hx with hx | hx
        · rw [hx, parse_specActive]
        · rw [hx, parse_specPending])).1
      (by
        intro x hx
        simp only [List.mem_cons, List.mem_singleton, List.not_mem_nil, or_false] at hx
        rcases hx with hx | hx <;> subst hx <;> rfl),
   (sequence_group_kind sampleEnv confId
      [GoAny.map specActive, GoAny.str "OR", GoAny.map specPending]
      (by
        intro x hx
        simp only [nonStrings, List.filter, fstype_IsType_string, Bool.not_false,
          Bool.not_true, List.mem_cons, List.mem_singleton, List.not_mem_nil, or_false] at hx
        rcases hx with hx | hx
        · rw [hx, parse_specActive]
        · rw [hx, parse_specPending])).2.1
      ⟨GoAny.str "OR", by simp, by decide⟩⟩

/-- The spec `[A, [B, "or", C]]`, for `A`, `B`, `C` that are not strings and parse
without error. -/
theorem parseCnd_nested_example (env : Env) (conf : i_Config) :
    ∀ (A B C : GoAny) (a b c : i_Cnd),
      fstype_IsType_string A = false → fstype_IsType_string B = false →
      fstype_IsType_string C = false →
      parseCnd env conf A = (a, none) → parseCnd env conf B = (b, none) →
      parseCnd env conf C = (c, none) →
      parseCnd env conf (GoAny.slice [A, GoAny.slice [B, GoAny.str "or", C]])
        = (i_Cnd.andCnds [a, i_Cnd.orCnds [b, c]], none) := by
  intro A B C a b c hA hB hC ha hb hc
  have hnsI : nonStrings [B, GoAny.str "or", C] = [B, C] := by
    rw [nonStrings_cons_of_not_string B _ hB, nonStrings_cons_of_string,
      nonStrings_cons_of_not_string C _ hC]
    rfl
  have hinner : parseCnd env conf (GoAny.slice [B, GoAny.str "or", C])
      = (i_Cnd.orCnds [b, c], none) := by
    have hok : ∀ x ∈ nonStrings [B, GoAny.str "or", C], (parseCnd env conf x).2 = none := by
      intro x hx
      rw [hnsI] at hx
      simp only [List.mem_cons, List.mem_singleton, List.not_mem_nil, or_false] at hx
      rcases hx with hx | hx
      · rw [hx, hb]
      · rw [hx, hc]
    have hany : [B, GoAny.str "or", C].any isOrToken = true :=
      List.any_eq_true.mpr ⟨GoAny.str "or", by simp, by decide⟩
    rw [parseCnd_slice_all_ok env conf _ hok, hany]
    simp [childrenOf, hnsI, hb, hc]
  have hnsO : nonStrings [A, GoAny.slice [B, GoAny.str "or", C]]
      = [A, GoAny.slice [B, GoAny.str "or", C]] := by
    rw [nonStrings_cons_of_not_string A _ hA,
      nonStrings_cons_of_not_string (GoAny.slice [B, GoAny.str "or", C]) [] rfl]
    rfl
  have hok : ∀ x ∈ nonStrings [A, GoAny.slice [B, GoAny.str "or", C]],
      (parseCnd env conf x).2 = none := by
    intro x hx
    rw [hnsO] at hx
    simp only [List.mem_cons, List.mem_singleton, List.not_mem_nil, or_false] at hx
    rcases hx with hx | hx
    · rw [hx, ha]
    · rw [hx, hinner]
  have hany : [A, GoAny.slice [B, GoAny.str "or", C]].any isOrToken = false := by
    have hAo : isOrToken A = false := by unfold isOrToken; rw [hA]; rfl
    have hSo : isOrToken (GoAny.slice [B, GoAny.str "or", C]) = false := rfl
    simp [List.any, hAo, hSo]
  rw [parseCnd_slice_all_ok env conf _ hok, hany]
  simp [childrenOf, hnsO, ha, hinner]

/-- C7: when a sequence spec parses without error, the node is a group whose
children are the nodes parsed from the non-string elements, one child for each
such element, in the order of the spec.  For `[A, [B, "or", C]]` with `A`, `B`,
`C` not strings and parsing to `a`, `b`, `c`, the node is the "and" group of `a`
and the "or" group of `b` and `c`. -/
theorem sequence_children_in_order (env : Env) (conf : i_Config) (xs : List GoAny) (t : i_Cnd)
    (h : parseCnd env conf (GoAny.slice xs) = (t, none)) :
    (t = i_Cnd.andCnds (childrenOf env conf xs) ∨ t = i_Cnd.orCnds (childrenOf env conf xs)) ∧
    List.Forall₂ (fun x c => parseCnd env conf x = (c, none))
      (nonStrings xs) (childrenOf env conf xs) ∧
    (∀ (A B C : GoAny) (a b c : i_Cnd),
      fstype_IsType_string A = false → fstype_IsType_string B = false →
      fstype_IsType_string C = false →
      parseCnd env conf A = (a, none) → parseCnd env conf B = (b, none) →
      parseCnd env conf C = (c, none) →
      parseCnd env conf (GoAny.slice [A, GoAny.slice [B, GoAny.str "or", C]])
        = (i_Cnd.andCnds [a, i_Cnd.orCnds [b, c]], none)) := by
  have hall := parseCnd_slice_ok_elements env conf xs t h
  refine ⟨?_, ?_, ?_⟩
  · rw [parseCnd_slice_all_ok env conf xs hall] at h
    by_cases hor : xs.any isOrToken = true
    · right
      simp only [hor, if_true, Prod.mk.injEq, and_true] at h
      exact h.symm
    · left
      simp only [hor, Bool.false_eq_true, if_false, Prod.mk.injEq, and_true] at h
      exact h.symm
  · unfold childrenOf
    rw [List.forall₂_map_right_iff, List.forall₂_same]
    intro x hx
    have := hall x hx
    rw [← this]
  · exact parseCnd_nested_example env conf

/-- Witness for C7: `[{age gt 18}, [{status eq active}, "or", {status eq pending}]]`
parses to the "and" group of the first condition and the "or" group of the
other two. -/
theorem sequence_children_in_order_witness :
    parseCnd sampleEnv confId
        (GoAny.slice [GoAny.map specAge,
          GoAny.slice [GoAny.map specActive, GoAny.str "or", GoAny.map specPending]])
      = (i_Cnd.andCnds [i_Cnd.cnd (leafFor confId "age" "gt" (GoAny.int 18) cmpGt),
          i_Cnd.orCnds [i_Cnd.cnd (leafFor confId "status" "eq" (GoAny.str "active") cmpEq),
            i_Cnd.cnd (leafFor confId "status" "eq" (GoAny.str "pending") cmpEq)]], none) ∧
    List.Forall₂ (fun x c => parseCnd sampleEnv confId x = (c, none))
      (nonStrings [GoAny.map specAge,
          GoAny.slice [GoAny.map specActive, GoAny.str "or", GoAny.map specPending]])
      (childrenOf sampleEnv confId [GoAny.map specAge,
          GoAny.slice [GoAny.map specActive, GoAny.str "or", GoAny.map specPending]]) :=
  ⟨parseCnd_nested_example sampleEnv confId (GoAny.map specAge) (GoAny.map specActive)
      (GoAny.map specPending) _ _ _ rfl rfl rfl
      parse_specAge parse_specActive parse_specPending,
   (sequence_children_in_order sampleEnv confId _ _
      (parseCnd_nested_example sampleEnv confId (GoAny.map specAge) (GoAny.map specActive)
        (GoAny.map specPending) _ _ _ rfl rfl rfl
        parse_specAge parse_specActive parse_specPending)).2.1⟩

/-! ## Parse errors in composite conditions -/

/-- A failing parse of a mapping returns no node. -/
theorem s_Cnd_parse_error_nil (env : Env) (this : s_Cnd) (m : List (String × GoAny))
    (e : GoError) (h : (s_Cnd.parse env this m).2 = some e) :
    s_Cnd.parse env this m = (i_Cnd.nil, some e) := by
  unfold s_Cnd.parse at h ⊢
  simp only at h ⊢
  split_ifs at h ⊢ <;> simp_all

/-- The error of the leftmost failing element is the result of the parse. -/
theorem firstFailure_parseCnd (env : Env) (conf : i_Config) (x : GoAny) (e : GoError)
    (h : FirstFailure env conf x e) : parseCnd env conf x = (i_Cnd.nil, some e) := by
  induction h with
  | here x e hx he =>
    by_cases hm : ∃ m, x = GoAny.map m
    · obtain ⟨m, rfl⟩ := hm
      rw [parseCnd_map] at he ⊢
      exact s_Cnd_parse_error_nil env _ m e he
    · push_neg at hm
      rw [parseCnd_invalid env conf x hm hx] at he ⊢
      simpa using he
  | inside pre post x e hs hpre _ ih =>
    exact parseCnd_slice_first_error env conf pre post x e hs hpre (by rw [ih])

/-- C8: for a sequence spec, when `e` is the error of the leftmost failing
element (a non-string element at any depth, after non-string elements that all
parse), `parseCnd` on the whole sequence returns no node together with `e`
itself, whatever the elements after the failing one are. -/
theorem sequence_parse_error_propagates (env : Env) (conf : i_Config) (xs : List GoAny)
    (e : GoError) (h : FirstFailure env conf (GoAny.slice xs) e) :
    parseCnd env conf (GoAny.slice xs) = (i_Cnd.nil, some e) :=
  firstFailure_parseCnd env conf (GoAny.slice xs) e h

/-- Witness for C8: in `[{age gt 18}, [{status eq active}, "or", {no key}], 5]`
the mapping without a field name, two levels down, gives the error of the
whole parse; the invalid element `5` after it is not looked at. -/
theorem sequence_parse_error_propagates_witness :
    parseCnd sampleEnv confId
        (GoAny.slice ([GoAny.map specAge] ++
          GoAny.slice ([GoAny.map specActive, GoAny.str "or"] ++ GoAny.map specNoKey :: []) ::
          [GoAny.int 5]))
      = (i_Cnd.nil, some (errors_New "no search condition key/col indicated")) :=
  sequence_parse_error_propagates sampleEnv confId _ _
    (FirstFailure.inside [GoAny.map specAge] [GoAny.int 5] _ _ rfl
      (by
        intro p hp
        rw [nonStrings_cons_of_not_string (GoAny.map specAge) [] rfl] at hp
        simp only [nonStrings, List.filter, List.mem_singleton] at hp
        rw [hp, parse_specAge])
      (FirstFailure.inside [GoAny.map specActive, GoAny.str "or"] [] _ _ rfl
        (by
          intro p hp
          rw [nonStrings_cons_of_not_string (GoAny.map specActive) [GoAny.str "or"] rfl,
            nonStrings_cons_of_string] at hp
          simp only [nonStrings, List.filter, List.mem_singleton] at hp
          rw [hp, parse_specActive])
        (FirstFailure.here _ _ (by intro xs hxs; cases hxs)
          (by rw [parseCnd_map]; rfl))))

/-! ## The invariant of parsed trees -/

theorem mem_leavesOfList (l : s_Cnd) (cnds : List i_Cnd) :
    l ∈ leavesOfList cnds ↔ ∃ c ∈ cnds, l ∈ c.leaves := by
  induction cnds with
  | nil => simp [leavesOfList]
  | cons c rest ih => simp [leavesOfList, ih]

/-- The invariant, by induction on a bound of the size of the spec. -/
theorem parsed_leaves_bounded (env : Env) (conf : i_Config) :
    ∀ (n : Nat) (x : GoAny), sizeOf x < n → ∀ (t : i_Cnd),
      parseCnd env conf x = (t, none) → ∀ l ∈ t.leaves, LeafInv env conf l := by
  intro n
  induction n with
  | zero => intro x hx; omega
  | succ n ih =>
    intro x hx t ht l hl
    by_cases hm : ∃ m, x = GoAny.map m
    · obtain ⟨m, rfl⟩ := hm
      rw [parseCnd_map] at ht
      obtain ⟨key, mtch, val, f, _, hne, _, _, hf, rfl⟩ := s_Cnd_parse_inv env conf m t ht
      simp only [i_Cnd.leaves, List.mem_singleton] at hl
      subst hl
      exact ⟨hne, f, rfl, hf⟩
    · by_cases hs : ∃ xs, x = GoAny.slice xs
      · obtain ⟨xs, rfl⟩ := hs
        have hall := parseCnd_slice_ok_elements env conf xs t ht
        rw [parseCnd_slice_all_ok env conf xs hall] at ht
        have hmem : l ∈ leavesOfList (childrenOf env conf xs) := by
          by_cases hor : xs.any isOrToken = true
          · simp only [hor, if_true, Prod.mk.injEq, and_true] at ht
            rw [← ht] at hl
            simpa [i_Cnd.leaves] using hl
          · simp only [hor, Bool.false_eq_true, if_false, Prod.mk.injEq, and_true] at ht
            rw [← ht] at hl
            simpa [i_Cnd.leaves] using hl
        obtain ⟨c, hc, hlc⟩ := (mem_leavesOfList l _).mp hmem
        unfold childrenOf at hc
        obtain ⟨y, hy, rfl⟩ := List.mem_map.mp hc
        have hyxs : y ∈ xs := (List.mem_filter.mp hy).1
        have hlt : sizeOf y < sizeOf xs := List.sizeOf_lt_of_mem hyxs
        have hsz : sizeOf (GoAny.slice xs) = 1 + sizeOf xs := by simp
        have hyn : sizeOf y < n := by omega
        have hpy : parseCnd env conf y = ((parseCnd env conf y).1, none) := by
          rw [← hall y hy]
        exact ih y hyn _ hpy l hlc
      · push_neg at hm hs
        rw [parseCnd_invalid env conf x hm hs] at ht
        simp at ht

/-- C9: in the tree returned by a successful `parseCnd`, every single condition,
at any depth, has a non-empty `Key` and a comparator that is not nil, the one
registered for the operator name resolved from its `Match`. -/
theorem parsed_leaves_invariant (env : Env) (conf : i_Config) (x : GoAny) (t : i_Cnd)
    (h : parseCnd env conf x = (t, none)) :
    ∀ l ∈ t.leaves, l.Key ≠ "" ∧ ∃ f : Comparator,
      l.comparer = some f ∧ env.handlers (conf.GetMatchHandler l.Match) = some f :=
  fun l hl => parsed_leaves_bounded env conf (sizeOf x + 1) x (Nat.lt_succ_self _) t h l hl

/-- Witness for C9: the three single conditions of the tree parsed from
`[{age gt 18}, [{status eq active}, "or", {status eq pending}]]`. -/
theorem parsed_leaves_invariant_witness :
    (parseCnd sampleEnv confId
        (GoAny.slice [GoAny.map specAge,
          GoAny.slice [GoAny.map specActive, GoAny.str "or", GoAny.map specPending]])
      = (i_Cnd.andCnds [i_Cnd.cnd (leafFor confId "age" "gt" (GoAny.int 18) cmpGt),
          i_Cnd.orCnds [i_Cnd.cnd (leafFor confId "status" "eq" (GoAny.str "active") cmpEq),
            i_Cnd.cnd (leafFor confId "status" "eq" (GoAny.str "pending") cmpEq)]], none)) ∧
    (∀ l ∈ (i_Cnd.andCnds [i_Cnd.cnd (leafFor confId "age" "gt" (GoAny.int 18) cmpGt),
          i_Cnd.orCnds [i_Cnd.cnd (leafFor confId "status" "eq" (GoAny.str "active") cmpEq),
            i_Cnd.cnd (leafFor confId "status" "eq" (GoAny.str "pending") cmpEq)]]).leaves,
      l.Key ≠ "" ∧ ∃ f : Comparator,
        l.comparer = some f ∧ sampleEnv.handlers (confId.GetMatchHandler l.Match) = some f) :=
  ⟨parseCnd_nested_example sampleEnv confId (GoAny.map specAge) (GoAny.map specActive)
      (GoAny.map specPending) _ _ _ rfl rfl rfl
      parse_specAge parse_specActive parse_specPending,
   parsed_leaves_invariant sampleEnv confId _ _
    (parseCnd_nested_example sampleEnv confId (GoAny.map specAge) (GoAny.map specActive)
      (GoAny.map specPending) _ _ _ rfl rfl rfl
      parse_specAge parse_specActive parse_specPending)⟩

/-! ## Errors of single conditions -/

/-- C11: a mapping spec with a non-empty string field name and no "match" entry,
whatever its other entries are, fails to parse with the error "condition match
is not indicated", which mentions "match". -/
theorem missing_match_is_parse_error (env : Env) (conf : i_Config)
    (m : List (String × GoAny)) (key : String)
    (hk : fieldEntry m = (GoAny.str key, true)) (hne : key ≠ "")
    (hm : (mapIndex m "match").2 = false) :
    parseCnd env conf (GoAny.map m)
      = (i_Cnd.nil, some (errors_New "condition match is not indicated")) ∧
    Mentions (errors_New "condition match is not indicated").msg "match" := by
  refine ⟨?_, "condition ", " is not indicated", by decide⟩
  rw [parseCnd_map]
  unfold s_Cnd.parse
  simp only [fieldEntry_eq, hk, hm]
  simp [fstype_IsType_string, assertString, hne, newCnd]

/-- Witness for C11: `{"key":"age"}`, where "value" is missing as well. -/
theorem missing_match_is_parse_error_witness :
    (mapIndex specOnlyKey "value").2 = false ∧
    parseCnd sampleEnv confId (GoAny.map specOnlyKey)
      = (i_Cnd.nil, some (errors_New "condition match is not indicated")) ∧
    Mentions (errors_New "condition match is not indicated").msg "match" :=
  ⟨rfl, missing_match_is_parse_error sampleEnv confId specOnlyKey "age" rfl (by decide) rfl⟩

/-- C12, as the code has it: a mapping spec with a non-empty string field name,
a string "match" and no "value" entry fails to parse with the error "condition
value is not indicated", whether or not the operator named by "match" is
registered. -/
theorem missing_value_is_parse_error (env : Env) (conf : i_Config)
    (m : List (String × GoAny)) (key mtch : String)
    (hk : fieldEntry m = (GoAny.str key, true)) (hne : key ≠ "")
    (hm : mapIndex m "match" = (GoAny.str mtch, true))
    (hv : (mapIndex m "value").2 = false) :
    parseCnd env conf (GoAny.map m)
      = (i_Cnd.nil, some (errors_New "condition value is not indicated")) ∧
    Mentions (errors_New "condition value is not indicated").msg "value" := by
  refine ⟨?_, "condition ", " is not indicated", by decide⟩
  rw [parseCnd_map]
  unfold s_Cnd.parse
  simp only [fieldEntry_eq, hk, hm, hv]
  simp [fstype_IsType_string, assertString, hne, newCnd]

/-- Witness for C12: `{"key":"age","match":"between"}`, whose operator is not in
the sample registry. -/
theorem missing_value_is_parse_error_witness :
    sampleEnv.handlers (confId.GetMatchHandler "between") = none ∧
    parseCnd sampleEnv confId (GoAny.map specUnknownOpNoValue)
      = (i_Cnd.nil, some (errors_New "condition value is not indicated")) ∧
    Mentions (errors_New "condition value is not indicated").msg "value" :=
  ⟨rfl, missing_value_is_parse_error sampleEnv confId specUnknownOpNoValue "age" "between"
    rfl (by decide) rfl rfl⟩

/-- Counterexample to C12 as stated: for `{"key":"age","match":"gt"}` the error
is "condition value is not indicated", not "value not indicated". -/
theorem missing_value_message :
    parseCnd sampleEnv confId (GoAny.map specNoValue)
      = (i_Cnd.nil, some (errors_New "condition value is not indicated")) ∧
    errors_New "condition value is not indicated" ≠ errors_New "value not indicated" := by
  refine ⟨?_, by decide⟩
  rw [parseCnd_map]
  simp [s_Cnd.parse, specNoValue, mapIndex, fstype_IsType_string, assertString, newCnd]

/-- C13, as the code has it: a mapping spec that has neither a "key" entry nor a
"col" entry fails to parse with the error "no search condition key/col
indicated" and no node, whatever its other entries are. -/
theorem missing_key_is_parse_error (env : Env) (conf : i_Config)
    (m : List (String × GoAny))
    (hk : (mapIndex m "key").2 = false) (hc : (mapIndex m "col").2 = false) :
    parseCnd env conf (GoAny.map m)
      = (i_Cnd.nil, some (errors_New "no search condition key/col indicated")) := by
  rw [parseCnd_map]
  unfold s_Cnd.parse
  simp [hk, hc]

/-- Witness for C13: `{"match":"eq","value":1}`. -/
theorem missing_key_is_parse_error_witness :
    parseCnd sampleEnv confId (GoAny.map specNoKey)
      = (i_Cnd.nil, some (errors_New "no search condition key/col indicated")) :=
  missing_key_is_parse_error sampleEnv confId specNoKey rfl rfl

/-- Counterexample to C13 as stated: for `{"match":"eq","value":1}` the error is
"no search condition key/col indicated", not "no condition key indicated". -/
theorem missing_key_message :
    (mapIndex specNoKey "key").2 = false ∧ (mapIndex specNoKey "col").2 = false ∧
    parseCnd sampleEnv confId (GoAny.map specNoKey)
      = (i_Cnd.nil, some (errors_New "no search condition key/col indicated")) ∧
    errors_New "no search condition key/col indicated"
      ≠ errors_New "no condition key indicated" := by
  refine ⟨rfl, rfl, ?_, by decide⟩
  rw [parseCnd_map]
  simp [s_Cnd.parse, specNoKey, mapIndex]

/-- C14, as the code has it: a mapping spec whose field-name entry (under "key",
or under "col" when "key" is absent) is the empty string fails to parse with
the error "search condition key/col is not allow to be empty" and no node,
whatever its "match" and "value" entries are. -/
theorem empty_key_is_parse_error (env : Env) (conf : i_Config)
    (m : List (String × GoAny))
    (hk : fieldEntry m = (GoAny.str "", true)) :
    parseCnd env conf (GoAny.map m)
      = (i_Cnd.nil, some (errors_New "search condition key/col is not allow to be empty")) := by
  rw [parseCnd_map]
  unfold s_Cnd.parse
  simp only [fieldEntry_eq, hk]
  simp [fstype_IsType_string, assertString]

/-- Witness for C14: `{"col":"","match":"gt","value":18}`, with a registered
operator and a value. -/
theorem empty_key_is_parse_error_witness :
    parseCnd sampleEnv confId (GoAny.map specEmptyCol)
      = (i_Cnd.nil, some (errors_New "search condition key/col is not allow to be empty")) :=
  empty_key_is_parse_error sampleEnv confId specEmptyCol rfl

/-- Counterexample to C14 as stated: for `{"col":"","match":"gt","value":18}` the
error is "search condition key/col is not allow to be empty", not "condition
key must not be empty". -/
theorem empty_key_message :
    fieldEntry specEmptyCol = (GoAny.str "", true) ∧
    parseCnd sampleEnv confId (GoAny.map specEmptyCol)
      = (i_Cnd.nil, some (errors_New "search condition key/col is not allow to be empty")) ∧
    errors_New "search condition key/col is not allow to be empty"
      ≠ errors_New "condition key must not be empty" := by
  refine ⟨rfl, ?_, by decide⟩
  rw [parseCnd_map]
  simp [s_Cnd.parse, specEmptyCol, mapIndex, fstype_IsType_string, assertString]

/-- C15, as the code has it: for a raw spec that is neither a mapping nor a
sequence, `parseCnd` returns no node and the error whose message is
`invalid search condition("<repr>")`, where `<repr>` is the rendering of the
spec by the verb `%#v`. -/
theorem invalid_spec_is_parse_error (env : Env) (conf : i_Config) (x : GoAny)
    (hm : ∀ m, x ≠ GoAny.map m) (hs : ∀ xs, x ≠ GoAny.slice xs) :
    parseCnd env conf x
      = (i_Cnd.nil, some ⟨"invalid search condition(\"" ++ env.fmtSharpV x ++ "\")"⟩) :=
  parseCnd_invalid env conf x hm hs

/-- Witness for C15: the number 5, the boolean true, the string "and" and null
as top-level specs. -/
theorem invalid_spec_is_parse_error_witness :
    parseCnd sampleEnvFmt confId (GoAny.int 5)
      = (i_Cnd.nil, some ⟨"invalid search condition(\"5\")"⟩) ∧
    parseCnd sampleEnvFmt confId (GoAny.bool true)
      = (i_Cnd.nil, some ⟨"invalid search condition(\"true\")"⟩) ∧
    parseCnd sampleEnvFmt confId (GoAny.str "and")
      = (i_Cnd.nil, some ⟨"invalid search condition(\"?\")"⟩) ∧
    parseCnd sampleEnvFmt confId GoAny.nil
      = (i_Cnd.nil, some ⟨"invalid search condition(\"<nil>\")"⟩) :=
  ⟨invalid_spec_is_parse_error sampleEnvFmt confId (GoAny.int 5) nofun nofun,
   invalid_spec_is_parse_error sampleEnvFmt confId (GoAny.bool true) nofun nofun,
   invalid_spec_is_parse_error sampleEnvFmt confId (GoAny.str "and") nofun nofun,
   invalid_spec_is_parse_error sampleEnvFmt confId GoAny.nil nofun nofun⟩

/-- Counterexample to C15 as stated: for the number 5, rendered "5", the error
message is `invalid search condition("5")`, not "invalid condition: 5". -/
theorem invalid_spec_message :
    sampleEnvFmt.fmtSharpV (GoAny.int 5) = "5" ∧
    parseCnd sampleEnvFmt confId (GoAny.int 5)
      = (i_Cnd.nil, some ⟨"invalid search condition(\"5\")"⟩) ∧
    (⟨"invalid search condition(\"5\")"⟩ : GoError) ≠ ⟨"invalid condition: 5"⟩ := by
  refine ⟨rfl, ?_, by decide⟩
  rw [parseCnd_invalid sampleEnvFmt confId (GoAny.int 5) nofun nofun]
  rfl

/-! ## Empty groups and stray strings -/

/-- C16: a group with no children evaluates, on every object, to `(true, nil)`
when it is an "and" group and to `(false, nil)` when it is an "or" group; the
empty sequence parses to the empty "and" group, which accepts every object, and
the sequence `["or"]` parses to the empty "or" group, which rejects every
object. -/
theorem empty_groups (env : Env) (conf : i_Config) (obj : GoAny) :
    (i_Cnd.andCnds []).compare obj = some (true, none) ∧
    (i_Cnd.orCnds []).compare obj = some (false, none) ∧
    parseCnd env conf (GoAny.slice []) = (i_Cnd.andCnds [], none) ∧
    (parseCnd env conf (GoAny.slice [])).1.compare obj = some (true, none) ∧
    parseCnd env conf (GoAny.slice [GoAny.str "or"]) = (i_Cnd.orCnds [], none) ∧
    (parseCnd env conf (GoAny.slice [GoAny.str "or"])).1.compare obj = some (false, none) := by
  have hand : parseCnd env conf (GoAny.slice []) = (i_Cnd.andCnds [], none) := by
    rw [parseCnd_slice_all_ok env conf [] (by simp [nonStrings])]
    simp [childrenOf, nonStrings]
  have hor : parseCnd env conf (GoAny.slice [GoAny.str "or"]) = (i_Cnd.orCnds [], none) := by
    have hany : [GoAny.str "or"].any isOrToken = true :=
      List.any_eq_true.mpr ⟨GoAny.str "or", by simp, by decide⟩
    have hch : childrenOf env conf [GoAny.str "or"] = [] := by
      unfold childrenOf
      rw [nonStrings_cons_of_string]
      rfl
    rw [parseCnd_slice_all_ok env conf [GoAny.str "or"]
      (by rw [nonStrings_cons_of_string]; simp [nonStrings]), hany, hch]
    simp
  refine ⟨rfl, rfl, hand, ?_, hor, ?_⟩
  · rw [hand]; rfl
  · rw [hor]; rfl

theorem nonStrings_withoutStrayStrings (xs : List GoAny) :
    nonStrings (withoutStrayStrings xs) = nonStrings xs := by
  unfold nonStrings withoutStrayStrings
  rw [List.filter_filter]
  apply List.filter_congr
  intro x _
  cases hx : fstype_IsType_string x <;> simp

theorem any_isOrToken_withoutStrayStrings (xs : List GoAny) :
    (withoutStrayStrings xs).any isOrToken = xs.any isOrToken := by
  induction xs with
  | nil => rfl
  | cons x rest ih =>
    unfold withoutStrayStrings at ih ⊢
    rw [List.filter_cons]
    cases ho : isOrToken x with
    | true => simp [ho, ih]
    | false =>
      cases hx : fstype_IsType_string x with
      | true => simp [ho, hx, ih]
      | false => simp [ho, hx, ih]

/-- Removing one string that is not "or" in any letter case does not change the
parse of a `[]any`. -/
theorem parseCnd_slice_remove_stray (env : Env) (conf : i_Config) (pre post : List GoAny)
    (s : String) (hs : strings_ToLower s ≠ "or") :
    parseCnd env conf (GoAny.slice (pre ++ GoAny.str s :: post))
      = parseCnd env conf (GoAny.slice (pre ++ post)) := by
  have ho : isOrToken (GoAny.str s) = false := by
    simp [isOrToken, fstype_IsType_string, assertString, hs]
  rw [parseCnd_slice, parseCnd_slice, nonStrings_append, nonStrings_cons_of_string,
    ← nonStrings_append]
  simp [List.any_append, ho]

/-- C19: in a sequence spec the strings that are not "or" in any letter case are
ignored: `parseCnd` returns on the sequence what it returns on the sequence
with all such strings removed (the same group kind and children, or the same
error); so a stray string such as "and" or "xyz", at any place, never brings
the "invalid search condition" error that it gives as a top-level spec. -/
theorem stray_strings_ignored (env : Env) (conf : i_Config) (xs : List GoAny) :
    parseCnd env conf (GoAny.slice xs)
      = parseCnd env conf (GoAny.slice (withoutStrayStrings xs)) ∧
    (∀ (pre post : List GoAny) (s : String), strings_ToLower s ≠ "or" →
      parseCnd env conf (GoAny.slice (pre ++ GoAny.str s :: post))
        = parseCnd env conf (GoAny.slice (pre ++ post))) ∧
    parseCnd env conf (GoAny.slice [GoAny.str "and", GoAny.str "xyz"])
      = (i_Cnd.andCnds [], none) ∧
    (parseCnd env conf (GoAny.str "and")).2
      = some ⟨"invalid search condition(\"" ++ env.fmtSharpV (GoAny.str "and") ++ "\")"⟩ := by
  refine ⟨?_, parseCnd_slice_remove_stray env conf, ?_, ?_⟩
  · rw [parseCnd_slice, parseCnd_slice, nonStrings_withoutStrayStrings,
      any_isOrToken_withoutStrayStrings]
  · have h1 : parseCnd env conf (GoAny.slice [GoAny.str "and", GoAny.str "xyz"])
        = parseCnd env conf (GoAny.slice [GoAny.str "xyz"]) :=
      parseCnd_slice_remove_stray env conf [] [GoAny.str "xyz"] "and" (by decide)
    have h2 : parseCnd env conf (GoAny.slice [GoAny.str "xyz"])
        = parseCnd env conf (GoAny.slice []) :=
      parseCnd_slice_remove_stray env conf [] [] "xyz" (by decide)
    rw [h1, h2, parseCnd_slice_all_ok env conf [] (by simp [nonStrings])]
    simp [childrenOf, nonStrings]
  · rw [parseCnd_invalid env conf (GoAny.str "and") nofun nofun]

end ObjSearch

namespace FsPath

/-! ## `FileNoExt` -/

/-- The result of the loop of `path.Ext` is a suffix of the path. -/
theorem extLoop_eq_drop (path : GoString) :
    ∀ k, k ≤ path.length → ∃ i, i ≤ path.length ∧ extLoop path k = path.drop i := by
  intro k
  induction k with
  | zero => intro _; exact ⟨path.length, le_refl _, by simp [extLoop]⟩
  | succ k ih =>
    intro hk
    unfold extLoop
    by_cases h47 : path.getD k 0 = 47
    · exact ⟨path.length, le_refl _, by rw [if_pos h47, List.drop_length]⟩
    · by_cases h46 : path.getD k 0 = 46
      · exact ⟨k, by omega, by rw [if_neg h47, if_pos h46]⟩
      · rw [if_neg h47, if_neg h46]
        exact ih (by omega)

theorem getD_append_cons (p q : GoString) (c : Nat) :
    (p ++ c :: q).getD p.length 0 = c := by
  induction p with
  | nil => rfl
  | cons x p ih => exact ih

/-- The loop of `path.Ext` passes over bytes that are neither `.` nor `/`. -/
theorem extLoop_scan (t : GoString) :
    ∀ (p q : GoString), (∀ b ∈ t, b ≠ 46 ∧ b ≠ 47) →
      extLoop (p ++ t ++ q) (p.length + t.length) = extLoop (p ++ t ++ q) p.length := by
  induction t using List.reverseRecOn with
  | nil => intro p q _; simp
  | append_singleton t c ih =>
    intro p q h
    have hc : c ≠ 46 ∧ c ≠ 47 := h c (by simp)
    have ht : ∀ b ∈ t, b ≠ 46 ∧ b ≠ 47 := fun b hb => h b (by simp [hb])
    have hpath : p ++ (t ++ [c]) ++ q = p ++ t ++ (c :: q) := by simp
    have hlen : p.length + (t ++ [c]).length = (p.length + t.length) + 1 := by
      simp; omega
    have hget : (p ++ t ++ c :: q).getD (p.length + t.length) 0 = c := by
      have := getD_append_cons (p ++ t) q c
      simpa using this
    rw [hpath, hlen, extLoop, hget]
    simp only [hc.1, hc.2, if_false]
    exact ih p (c :: q) ht

theorem extLoop_dot (p q : GoString) :
    extLoop (p ++ 46 :: q) (p.length + 1) = 46 :: q := by
  rw [extLoop, getD_append_cons, if_neg (by decide), if_pos rfl, List.drop_left]

theorem extLoop_slash (p q : GoString) :
    extLoop (p ++ 47 :: q) (p.length + 1) = [] := by
  rw [extLoop, getD_append_cons, if_pos rfl]

/-- The extension of a path whose final element has no `.` is empty. -/
theorem path_Ext_no_dot (d elem : GoString) (hd : d = [] ∨ ∃ d1, d = d1 ++ [47])
    (h47 : 47 ∉ elem) (h46 : 46 ∉ elem) : path_Ext (d ++ elem) = [] := by
  have hscan := extLoop_scan elem d [] (fun b hb =>
    ⟨fun h => h46 (h ▸ hb), fun h => h47 (h ▸ hb)⟩)
  simp only [List.append_nil] at hscan
  unfold path_Ext
  rw [List.length_append, hscan]
  rcases hd with hd | ⟨d1, hd⟩
  · subst hd; rfl
  · subst hd
    have hpath : d1 ++ [47] ++ elem = d1 ++ 47 :: elem := by simp
    have hlen : (d1 ++ [47]).length = d1.length + 1 := by simp
    rw [hpath, hlen, extLoop_slash]

/-- The extension of a path whose final element has a `.` starts at the last one. -/
theorem path_Ext_last_dot (d a b : GoString)
    (h47 : 47 ∉ b) (h46 : 46 ∉ b) : path_Ext (d ++ (a ++ 46 :: b)) = 46 :: b := by
  have hscan := extLoop_scan b (d ++ a ++ [46]) [] (fun c hc =>
    ⟨fun h => h46 (h ▸ hc), fun h => h47 (h ▸ hc)⟩)
  simp only [List.append_nil] at hscan
  have hpath : d ++ (a ++ 46 :: b) = d ++ a ++ [46] ++ b := by simp
  have hpath2 : d ++ a ++ [46] ++ b = (d ++ a) ++ 46 :: b := by simp
  have hlen : (d ++ a ++ [46]).length = (d ++ a).length + 1 := by
    simp; omega
  unfold path_Ext
  rw [hpath, List.length_append, hscan, hpath2, hlen, extLoop_dot]

/-- C17: `FileNoExt(file)` never panics and returns `file` with its extension
removed: the result is a prefix of `file` and `file` is the result followed by
`path.Ext(file)`, where `path.Ext(file)` is the suffix starting at the last `.`
of the final slash-separated element and is empty when that element has no
`.`. -/
theorem fileNoExt_removes_ext (file : GoString) :
    ∃ r : GoString, FileNoExt file = some r ∧ r <+: file ∧ file = r ++ path_Ext file ∧
      (path_Ext file).length ≤ file.length ∧
      (∀ d elem : GoString, file = d ++ elem → (d = [] ∨ ∃ d1, d = d1 ++ [47]) →
        47 ∉ elem →
        (46 ∉ elem → path_Ext file = []) ∧
        (∀ a b : GoString, elem = a ++ 46 :: b → 46 ∉ b → path_Ext file = 46 :: b)) := by
  obtain ⟨i, hi, hext⟩ := extLoop_eq_drop file file.length (le_refl _)
  have hE : path_Ext file = file.drop i := hext
  have hlen : (path_Ext file).length = file.length - i := by rw [hE, List.length_drop]
  have hsplit : file = file.take i ++ path_Ext file := by
    rw [hE, List.take_append_drop]
  refine ⟨file.take i, ?_, ⟨path_Ext file, hsplit.symm⟩, hsplit, by omega, ?_⟩
  · unfold FileNoExt
    simp only [hlen]
    have h1 : ((file.length : Int) - ((file.length - i : Nat) : Int)) = (i : Int) := by omega
    rw [h1]
    simp [hi]
  · intro d elem hfile hd h47
    subst hfile
    refine ⟨path_Ext_no_dot d elem hd h47, ?_⟩
    intro a b helem h46
    subst helem
    exact path_Ext_last_dot d a b (fun h => h47 (by simp [h])) h46

/-! ## `IsFileAccessable` -/

/-- C18, at a failing input: a path that opens for reading and writing and is a
regular file with the permission bits 0644.  The last line of
`IsFileAccessable` returns `Perm()&0400 == 0`; the owner-read bit 0400 is set
in 0644, so the function returns `false` for this accessible file. -/
theorem isFileAccessable_rejects_0644 :
    sampleOS.OpenFile [100, 97, 116, 97] = some 3 ∧ sampleOS.Stat 3 = some 0o644 ∧
    Perm 0o644 &&& 0o400 = 0o400 ∧
    IsFileAccessable sampleOS [100, 97, 116, 97] = false := by
  decide

/-! ## `CleanPath` -/

/-- C20, at a failing input: the path `a\..\b`, on a platform whose separator is
`/`.  `filepath.Clean` sees one element and leaves it as it is, the replacement
of the backslashes then gives `a/../b`, which is not clean: `CleanPath` applied
again gives `b`.  So `CleanPath` is not idempotent there, though its result has
no backslash. -/
theorem cleanPath_not_idempotent :
    filepath_Clean [97, 92, 46, 46, 92, 98] = [97, 92, 46, 46, 92, 98] ∧
    CleanPath [97, 92, 46, 46, 92, 98] = [97, 47, 46, 46, 47, 98] ∧
    CleanPath (CleanPath [97, 92, 46, 46, 92, 98]) = [98] ∧
    CleanPath (CleanPath [97, 92, 46, 46, 92, 98]) ≠ CleanPath [97, 92, 46, 46, 92, 98] ∧
    92 ∉ CleanPath [97, 92, 46, 46, 92, 98] := by
  decide

end FsPath
